import Mathlib

/-
Verification of the paper-soccer rule engine and decision engine.
Shallow embedding of the TypeScript sources:
  packages/core/src/utils.ts, packages/core/src/types.ts,
  the move-validation and GameEngine modules, and
  src/PaperSoccerSimple.tsx (local copies of the helpers plus the AI).
JS numbers are modelled as Int (coordinates) and Rat (scores); JS
Set<string> is modelled as a List String (only membership and insertion
are ever used); JS ±Infinity in the search is modelled by an explicit
extended-score type.
-/

namespace PaperSoccer

/-- Grid vertex, `Pos` from `types.ts`: an integer pair. -/
structure Pos where
  x : Int
  y : Int
deriving DecidableEq, Repr

/-- A move `{from, to}` from `types.ts` (`from` is a reserved word in Lean,
so the fields are spelled `fro` and `tgt`). -/
structure Move where
  fro : Pos
  tgt : Pos
deriving DecidableEq, Repr

/-- Player 0 or 1 (`type Player = 0 | 1`). -/
abbrev Player := Fin 2

/-- The template string `x,y` used inside `keyEdge`. -/
def posKey (p : Pos) : String := toString p.x ++ "," ++ toString p.y

/-- `keyEdge` from `utils.ts`: undirected key of the segment a-b, built from
the two coordinate strings joined by a bar, smaller string first. -/
def keyEdge (a b : Pos) : String :=
  let k1 := posKey a
  let k2 := posKey b
  if k1 < k2 then k1 ++ "|" ++ k2 else k2 ++ "|" ++ k1

/-- `isAdjacent` from `utils.ts`. -/
def isAdjacent (a b : Pos) : Bool :=
  let dx := (a.x - b.x).natAbs
  let dy := (a.y - b.y).natAbs
  if dx == 0 && dy == 0 then false
  else decide (dx ≤ 1) && decide (dy ≤ 1)

/-- `isBoundary` from `utils.ts`. -/
def isBoundary (p : Pos) (width height : Int) : Bool :=
  p.x == 0 || p.x == width || p.y == 0 || p.y == height

/-- `inBounds` from `utils.ts`. -/
def inBounds (p : Pos) (width height : Int) : Bool :=
  decide (0 ≤ p.x) && decide (p.x ≤ width) && decide (0 ≤ p.y) && decide (p.y ≤ height)

/-- `isBorderEdge` from `utils.ts`: the segment lies along one of the four
boundary lines. -/
def isBorderEdge (a b : Pos) (width height : Int) : Bool :=
  if a.y == 0 && b.y == 0 then true
  else if a.y == height && b.y == height then true
  else if a.x == 0 && b.x == 0 then true
  else if a.x == width && b.x == width then true
  else false

/-- `centerPosition` from `utils.ts` (`Math.floor` division). -/
def centerPosition (width height : Int) : Pos :=
  ⟨width.fdiv 2, height.fdiv 2⟩

/-- The eight neighbour offsets in the enumeration order of the nested
`dx`/`dy` loops of `computeValidMoves` (skipping `(0,0)`). -/
def dirs8 : List (Int × Int) :=
  [(-1, -1), (-1, 0), (-1, 1), (0, -1), (0, 1), (1, -1), (1, 0), (1, 1)]

/-- `computeValidMoves` from the move-validation module: neighbours that are
in bounds, not along a border, and whose segment is not yet drawn. -/
def computeValidMoves (pos : Pos) (edges : List String) (width height : Int) : List Pos :=
  dirs8.filterMap fun d =>
    let q : Pos := ⟨pos.x + d.1, pos.y + d.2⟩
    if inBounds q width height && !isBorderEdge pos q width height &&
        !(edges.contains (keyEdge pos q)) then
      some q
    else
      none

/-- `isValidMove` from the move-validation module. -/
def isValidMove (move : Move) (currentPos : Pos) (edges : List String)
    (width height : Int) : Bool :=
  let fromOK := move.fro.x == currentPos.x && move.fro.y == currentPos.y
  let toOK := inBounds move.tgt width height && isAdjacent move.fro move.tgt &&
    !isBorderEdge move.fro move.tgt width height &&
    !(edges.contains (keyEdge move.fro move.tgt))
  fromOK && toOK

/-- Offsets enumerated by `incidentDegree` in `utils.ts` (its own `dirs`
array, self excluded). -/
def dirsDeg : List (Int × Int) :=
  [(-1, -1), (0, -1), (1, -1), (-1, 0), (1, 0), (-1, 1), (0, 1), (1, 1)]

/-- `incidentDegree` from `utils.ts`: number of drawn segments touching `p`. -/
def incidentDegree (p : Pos) (edges : List String) (width height : Int) : Nat :=
  dirsDeg.countP fun d =>
    let q : Pos := ⟨p.x + d.1, p.y + d.2⟩
    inBounds q width height && edges.contains (keyEdge p q)

/-- `willBounce` from `utils.ts`: boundary vertex, or pre-move incident
degree at least one. -/
def willBounce (target : Pos) (edges : List String) (width height : Int) : Bool :=
  if isBoundary target width height then true
  else decide (1 ≤ incidentDegree target edges width height)

/-- `willMoveBounce` from the move-validation module. -/
def willMoveBounce (move : Move) (edges : List String) (width height : Int) : Bool :=
  willBounce move.tgt edges width height

/-- `GoalSide` from `types.ts`. -/
inductive GoalSide where
  | LEFT
  | RIGHT
deriving DecidableEq, Repr

/-- `GameConfig` from `types.ts`. -/
structure GameConfig where
  width : Int
  height : Int
  goalWidth : Int
deriving DecidableEq, Repr

namespace Core

/-- `goalYRange` from `packages/core/src/utils.ts`: rows from
`max(1, mid - floor(goalWidth/2) + (even ? 0 : 1))` to
`min(height-1, mid + ceil(goalWidth/2))` where `mid = floor(height/2)`. -/
def goalYRange (height goalWidth : Int) : List Int :=
  let mid := height.fdiv 2
  let a := max 1 (mid - goalWidth.fdiv 2 + (if goalWidth.emod 2 == 0 then 0 else 1))
  let b := min (height - 1) (mid + (goalWidth + 1).fdiv 2)
  (List.range (b - a + 1).toNat).map fun i : Nat => a + (i : Int)

/-- `isGoal` from `packages/core/src/utils.ts`. -/
def isGoal (p : Pos) (width height goalWidth : Int) : Option GoalSide :=
  let ys := goalYRange height goalWidth
  if p.x == 0 && ys.contains p.y then some .LEFT
  else if p.x == width && ys.contains p.y then some .RIGHT
  else none

end Core

namespace Simple

/-- `goalYRange` from `PaperSoccerSimple.tsx`: `goalWidth` consecutive rows
starting at `floor((height-goalWidth)/2)` clamped into
`[1, max(1, height-goalWidth)]`, filtered to `1 ≤ y ≤ height-1`. -/
def goalYRange (height goalWidth : Int) : List Int :=
  let rawStart := (height - goalWidth).fdiv 2
  let maxStart := max 1 (height - goalWidth)
  let start := min (max rawStart 1) maxStart
  ((List.range goalWidth.toNat).map fun i : Nat => start + (i : Int)).filter fun y =>
    decide (1 ≤ y) && decide (y ≤ height - 1)

/-- `isGoal` from `PaperSoccerSimple.tsx` (local copy using the local
`goalYRange`). -/
def isGoal (p : Pos) (width height goalWidth : Int) : Option GoalSide :=
  let ys := goalYRange height goalWidth
  if p.x == 0 && ys.contains p.y then some .LEFT
  else if p.x == width && ys.contains p.y then some .RIGHT
  else none

end Simple

/-- `GameState` from `types.ts`. -/
structure GameState where
  edges : List String
  pos : Pos
  current : Player
  extraTurn : Bool
  winner : Option Player
  blockedLoser : Option Player
  validMoves : List Pos
deriving DecidableEq, Repr

/-- The turn flip `(current ^ 1)` on `Player = 0 | 1`. -/
def flipPlayer (p : Player) : Player := if p == 0 then 1 else 0

namespace Core

/-- `GameEngine.initializeGame`: token at board centre, no segments,
player 0 to act, no outcome. -/
def initializeGame (config : GameConfig) : GameState :=
  let pos := centerPosition config.width config.height
  let edges : List String := []
  let validMoves := computeValidMoves pos edges config.width config.height
  { edges := edges
    pos := pos
    current := 0
    extraTurn := false
    winner := none
    blockedLoser := none
    validMoves := validMoves }

/-- `GameEngine.makeMove`, with the mutated fields (`this.state`,
`this.history`) made explicit: returns the boolean result together with the
new state and history. -/
def makeMove (config : GameConfig) (state : GameState) (history : List Move)
    (tgt : Pos) : Bool × GameState × List Move :=
  if state.winner ≠ none then (false, state, history)
  else
    let fro := state.pos
    let move : Move := ⟨fro, tgt⟩
    if !isValidMove move fro state.edges config.width config.height then
      (false, state, history)
    else
      let k := keyEdge fro tgt
      let bounce := willMoveBounce move state.edges config.width config.height
      let edges' := k :: state.edges
      let pos' := tgt
      let history' := history ++ [move]
      if Core.isGoal pos' config.width config.height config.goalWidth ≠ none then
        (true,
          { state with
            edges := edges'
            pos := pos'
            extraTurn := false
            winner := some state.current
            validMoves := [] },
          history')
      else
        let current' := if bounce then state.current else flipPlayer state.current
        let validMoves' := computeValidMoves pos' edges' config.width config.height
        let blockedLoser' :=
          if validMoves'.length == 0 then some current' else state.blockedLoser
        (true,
          { edges := edges'
            pos := pos'
            current := current'
            extraTurn := bounce
            winner := state.winner
            blockedLoser := blockedLoser'
            validMoves := validMoves' },
          history')

/-- The loop variables of `GameEngine.simulateHistory`
(`edges`, `pos`, `current`, `winner`, `extraTurn`). -/
structure ReplayState where
  edges : List String
  pos : Pos
  current : Player
  winner : Option Player
  extraTurn : Bool
deriving DecidableEq, Repr

/-- The `for (const move of history)` loop of `GameEngine.simulateHistory`,
threading its loop variables; it stops (returning the accumulators, winner
still null) at the first move failing `fromOK && toOK`, and stops with the
winner set after a goal. -/
def replayLoop (config : GameConfig) :
    List Move → List String → Pos → Player → Bool → ReplayState
  | [], edges, pos, current, extraTurn => ⟨edges, pos, current, none, extraTurn⟩
  | move :: rest, edges, pos, current, extraTurn =>
    let fromOK := move.fro.x == pos.x && move.fro.y == pos.y
    let toOK := isValidMove move pos edges config.width config.height
    if !(fromOK && toOK) then ⟨edges, pos, current, none, extraTurn⟩
    else
      let bounce := willMoveBounce move edges config.width config.height
      let edges' := keyEdge move.fro move.tgt :: edges
      let pos' := move.tgt
      if Core.isGoal pos' config.width config.height config.goalWidth ≠ none then
        ⟨edges', pos', current, some current, false⟩
      else
        replayLoop config rest edges' pos'
          (if bounce then current else flipPlayer current) bounce

/-- `GameEngine.simulateHistory`: run the replay loop from the initial
state, then recompute the legal moves and the blocked loser. -/
def simulateHistory (config : GameConfig) (history : List Move) : GameState :=
  let r := replayLoop config history [] (centerPosition config.width config.height) 0 false
  let validMoves :=
    if r.winner = none then computeValidMoves r.pos r.edges config.width config.height
    else []
  let blockedLoser :=
    if r.winner = none ∧ validMoves.length == 0 then some r.current else none
  { edges := r.edges
    pos := r.pos
    current := r.current
    extraTurn := r.extraTurn
    winner := r.winner
    blockedLoser := blockedLoser
    validMoves := validMoves }

/-- Driving a fresh engine through a sequence of attempted targets: the
engine state and the recorded history after calling `makeMove` on each
target in turn. -/
def foldMakeMove (config : GameConfig) (targets : List Pos) : GameState × List Move :=
  targets.foldl
    (fun acc t =>
      let r := makeMove config acc.1 acc.2 t
      (r.2.1, r.2.2))
    (initializeGame config, [])

end Core

namespace Simple

/-- `SimState` from `PaperSoccerSimple.tsx`: the decision engine's detached
snapshot. -/
structure SimState where
  pos : Pos
  edges : List String
  current : Player
  extraTurn : Bool
  winner : Option Player
  draw : Bool
  validMoves : List Pos
deriving DecidableEq, Repr

/-- `createSimState` from `PaperSoccerSimple.tsx`. -/
def createSimState (pos : Pos) (edges : List String) (current : Player)
    (extraTurn : Bool) (validMoves : List Pos)
    (winner : Option Player := none) (draw : Bool := false) : SimState :=
  { pos := pos
    edges := edges
    current := current
    extraTurn := extraTurn
    winner := winner
    draw := draw
    validMoves := validMoves }

/-- `simulateMove` from `PaperSoccerSimple.tsx`: apply `move` to a
`SimState`; a goal awards the player attacking that side
(`goal.side === "LEFT" ? 0 : 1`); an empty follow-up move set becomes a
draw or a win for the opponent of `nextCurrent` depending on
`stalemateAsDraw`. -/
def simulateMove (state : SimState) (move : Pos) (config : GameConfig)
    (stalemateAsDraw : Bool) : SimState :=
  let bounce := willBounce move state.edges config.width config.height
  let newEdges := keyEdge state.pos move :: state.edges
  match Simple.isGoal move config.width config.height config.goalWidth with
  | some side =>
      let scoringPlayer : Player := if side = .LEFT then 0 else 1
      createSimState move newEdges state.current false [] (some scoringPlayer) false
  | none =>
      let nextCurrent := if bounce then state.current else flipPlayer state.current
      let nextExtraTurn := bounce
      let nextValidMoves := computeValidMoves move newEdges config.width config.height
      if nextValidMoves.length == 0 then
        if stalemateAsDraw then
          createSimState move newEdges nextCurrent false [] none true
        else
          createSimState move newEdges nextCurrent false [] (some (flipPlayer nextCurrent)) false
      else
        createSimState move newEdges nextCurrent nextExtraTurn nextValidMoves none false

end Simple

section Lemmas

/-- Characterisation of the eight enumerated neighbour offsets. -/
theorem mem_dirs8_iff (d : Int × Int) :
    d ∈ dirs8 ↔ (-1 ≤ d.1 ∧ d.1 ≤ 1 ∧ -1 ≤ d.2 ∧ d.2 ≤ 1 ∧ ¬(d.1 = 0 ∧ d.2 = 0)) := by
  obtain ⟨a, b⟩ := d
  constructor
  · intro h
    fin_cases h <;> simp_all
  · rintro ⟨h1, h2, h3, h4, h5⟩
    simp only [dirs8]
    interval_cases a <;> interval_cases b <;> simp_all

end Lemmas

/-- The move generator and the legality predicate accept the same targets
(shared helper). -/
theorem mem_computeValidMoves_iff (p : Pos) (edges : List String) (w h : Int) (q : Pos) :
    q ∈ computeValidMoves p edges w h ↔ isValidMove ⟨p, q⟩ p edges w h = true := by
  constructor
  · intro hq
    simp only [computeValidMoves, List.mem_filterMap] at hq
    obtain ⟨d, hd, hite⟩ := hq
    rw [mem_dirs8_iff] at hd
    obtain ⟨h1, h2, h3, h4, h5⟩ := hd
    split at hite
    case isFalse => simp at hite
    case isTrue hc =>
      obtain rfl : (⟨p.x + d.1, p.y + d.2⟩ : Pos) = q := by simpa using hite
      simp only [Bool.and_eq_true, Bool.not_eq_true'] at hc
      obtain ⟨⟨hb, hbe⟩, hce⟩ := hc
      simp only [isValidMove, isAdjacent, Bool.and_eq_true, beq_iff_eq, decide_eq_true_eq,
        Bool.not_eq_true', hb, hbe, hce, and_true, true_and]
      split
      case isTrue hz => omega
      case isFalse hz =>
        simp only [Bool.and_eq_true, decide_eq_true_eq]
        omega
  · intro hv
    simp only [isValidMove, Bool.and_eq_true, beq_iff_eq, Bool.not_eq_true'] at hv
    obtain ⟨⟨hfx, hfy⟩, ⟨⟨hb, hadj⟩, hbe⟩, hce⟩ := hv
    simp only [computeValidMoves, List.mem_filterMap]
    refine ⟨(q.x - p.x, q.y - p.y), ?_, ?_⟩
    · rw [mem_dirs8_iff]
      simp only [isAdjacent] at hadj
      split at hadj
      case isTrue hz => simp at hadj
      case isFalse hz =>
        simp only [Bool.and_eq_true, beq_iff_eq, decide_eq_true_eq] at hadj hz
        dsimp only
        omega
    · have hq : (⟨p.x + (q.x - p.x), p.y + (q.y - p.y)⟩ : Pos) = q := by
        cases q
        simp only [Pos.mk.injEq]
        omega
      dsimp only
      simp only [hq, hb, hbe, hce]
      rfl

/-- C3: for every position `p` and drawn-segment set `S`,
`computeValidMoves p S width height` contains a vertex `q` if and only if
the move `{from := p, to := q}` passes the legality predicate `isValidMove`
with current position `p`: the move generator and the apply-move check
agree for all eight neighbour directions (and `computeValidMoves` never
emits a non-neighbour). -/
theorem claim_C3_legality_agreement (p : Pos) (edges : List String) (w h : Int) (q : Pos) :
    q ∈ computeValidMoves p edges w h ↔ isValidMove ⟨p, q⟩ p edges w h = true :=
  mem_computeValidMoves_iff p edges w h q

/-- C2 counterexample: the claim fails on the `goalYRange` of
`packages/core/src/utils.ts`: for height 8 and goalWidth 2 it returns the
three rows `[3, 4, 5]`, not a span of exactly `goalWidth = 2` rows, and on a
width-10 board the vertex `(0, 5)` is then also a goal. -/
theorem claim_C2_counterexample :
    Core.goalYRange 8 2 = [3, 4, 5] ∧ (Core.goalYRange 8 2).length ≠ 2 ∧
    Core.isGoal ⟨0, 5⟩ 10 8 2 = some GoalSide.LEFT := by decide

/-- C2 amended: the `goalYRange` of `PaperSoccerSimple.tsx` satisfies the
claim: whenever `1 ≤ goalWidth ≤ height - 2` it is exactly the centred span
of `goalWidth` consecutive rows starting at `floor((height - goalWidth)/2)`;
its rows always lie in the open interval `(0, height)`; for height 8 and
goalWidth 2 the rows are exactly `[3, 4]`, so on a width-10 board `(0, 2)`
is not a goal while `(0, 3)` and `(0, 4)` are LEFT goals. The core variant
instead returns `[3, 4, 5]` there. -/
theorem claim_C2_goal_rows :
    (∀ h gw : Int, 1 ≤ gw → gw ≤ h - 2 →
      Simple.goalYRange h gw =
        (List.range gw.toNat).map (fun i : Nat => (h - gw).fdiv 2 + (i : Int))) ∧
    (∀ h gw : Int, ∀ y ∈ Simple.goalYRange h gw, 0 < y ∧ y < h) ∧
    Simple.goalYRange 8 2 = [3, 4] ∧
    Core.goalYRange 8 2 = [3, 4, 5] ∧
    Simple.isGoal ⟨0, 2⟩ 10 8 2 = none ∧
    Simple.isGoal ⟨0, 3⟩ 10 8 2 = some GoalSide.LEFT ∧
    Simple.isGoal ⟨0, 4⟩ 10 8 2 = some GoalSide.LEFT := by
  refine ⟨?_, ?_, by decide, by decide, by decide, by decide, by decide⟩
  · intro h gw h1 h2
    simp only [Simple.goalYRange]
    rw [Int.fdiv_eq_ediv _ (by norm_num)]
    have hs1 : 1 ≤ (h - gw) / 2 := by omega
    have hs2 : (h - gw) / 2 ≤ h - gw := by omega
    rw [max_eq_left hs1, max_eq_right (by omega : (1:Int) ≤ h - gw), min_eq_left hs2]
    rw [List.filter_eq_self.mpr]
    intro y hy
    rw [List.mem_map] at hy
    obtain ⟨i, hi, rfl⟩ := hy
    rw [List.mem_range] at hi
    have hc : (gw.toNat : Int) = gw := Int.toNat_of_nonneg (by omega)
    have hi' : (i : Int) < (gw.toNat : Int) := by exact_mod_cast hi
    rw [hc] at hi'
    simp only [Bool.and_eq_true, decide_eq_true_eq]
    omega
  · intro h gw y hy
    simp only [Simple.goalYRange, List.mem_filter, Bool.and_eq_true, decide_eq_true_eq] at hy
    omega

/-- Witness for C2: the general span description instantiated at
height 8, goalWidth 2. -/
theorem claim_C2_goal_rows_witness :
    Simple.goalYRange 8 2 =
      (List.range (2 : Int).toNat).map
        (fun i : Nat => ((8 : Int) - 2).fdiv 2 + (i : Int)) :=
  claim_C2_goal_rows.1 8 2 (by decide) (by decide)

/-- C5: `GameEngine.makeMove` returns false and leaves the state and the
history completely unchanged when the state already has a winner or the
target fails the legality predicate; it returns true otherwise; and in a
blocked state (empty legal-move set, the situation in which
`blockedLoser` is set) every call is rejected unchanged even though
`makeMove` only tests `winner` explicitly, because no vertex passes the
legality predicate there. -/
theorem claim_C5_reject_invariance (cfg : GameConfig) (st : GameState)
    (hist : List Move) (tgt : Pos) :
    (st.winner ≠ none ∨
        isValidMove ⟨st.pos, tgt⟩ st.pos st.edges cfg.width cfg.height = false →
      Core.makeMove cfg st hist tgt = (false, st, hist)) ∧
    (st.winner = none →
      isValidMove ⟨st.pos, tgt⟩ st.pos st.edges cfg.width cfg.height = true →
      (Core.makeMove cfg st hist tgt).1 = true) ∧
    (computeValidMoves st.pos st.edges cfg.width cfg.height = [] →
      Core.makeMove cfg st hist tgt = (false, st, hist)) := by
  refine ⟨?_, ?_, ?_⟩
  · rintro (hw | hv)
    · simp [Core.makeMove, hw]
    · by_cases hw : st.winner = none
      · simp [Core.makeMove, hw, hv]
      · simp [Core.makeMove, hw]
  · intro hw hv
    simp only [Core.makeMove, hw, hv, Bool.not_true, ne_eq, not_true_eq_false,
      Bool.false_eq_true, if_false]
    split <;> rfl
  · intro hcv
    have hv : isValidMove ⟨st.pos, tgt⟩ st.pos st.edges cfg.width cfg.height = false := by
      by_contra hvt
      rw [Bool.not_eq_false] at hvt
      have := (mem_computeValidMoves_iff st.pos st.edges cfg.width cfg.height tgt).mpr hvt
      rw [hcv] at this
      simp at this
    by_cases hw : st.winner = none
    · simp [Core.makeMove, hw, hv]
    · simp [Core.makeMove, hw]

/-- Witness for C5: a concrete already-won state on the 10 by 8 board; the
call is rejected and nothing changes. -/
theorem claim_C5_reject_invariance_witness :
    Core.makeMove ⟨10, 8, 2⟩ ⟨[], ⟨5, 4⟩, 0, false, some 0, none, []⟩ [] ⟨5, 3⟩ =
      (false, ⟨[], ⟨5, 4⟩, 0, false, some 0, none, []⟩, []) :=
  (claim_C5_reject_invariance ⟨10, 8, 2⟩ ⟨[], ⟨5, 4⟩, 0, false, some 0, none, []⟩
    [] ⟨5, 3⟩).1 (Or.inl (by decide))

/-- C6: for an accepted non-goal move of `GameEngine.makeMove`, the bounce
test is exactly `to` on the boundary or pre-move incident degree of `to`
at least one (measured on the segment set before the move's own segment is
added); on a bounce the active player is unchanged and the extra-turn flag
is set, otherwise the player flips exactly once and the flag is cleared;
with no drawn segments an interior target never bounces. -/
theorem claim_C6_bounce_turns (cfg : GameConfig) (st : GameState)
    (hist : List Move) (tgt : Pos)
    (hw : st.winner = none)
    (hv : isValidMove ⟨st.pos, tgt⟩ st.pos st.edges cfg.width cfg.height = true)
    (hg : Core.isGoal tgt cfg.width cfg.height cfg.goalWidth = none) :
    (willBounce tgt st.edges cfg.width cfg.height =
      (isBoundary tgt cfg.width cfg.height ||
        decide (1 ≤ incidentDegree tgt st.edges cfg.width cfg.height))) ∧
    (willBounce tgt st.edges cfg.width cfg.height = true →
      (Core.makeMove cfg st hist tgt).2.1.current = st.current ∧
      (Core.makeMove cfg st hist tgt).2.1.extraTurn = true) ∧
    (willBounce tgt st.edges cfg.width cfg.height = false →
      (Core.makeMove cfg st hist tgt).2.1.current = flipPlayer st.current ∧
      (Core.makeMove cfg st hist tgt).2.1.current ≠ st.current ∧
      (Core.makeMove cfg st hist tgt).2.1.extraTurn = false) ∧
    (st.edges = [] → isBoundary tgt cfg.width cfg.height = false →
      willBounce tgt st.edges cfg.width cfg.height = false) := by
  have hflip : ∀ p : Player, flipPlayer p ≠ p := by decide
  refine ⟨?_, ?_, ?_, ?_⟩
  · simp only [willBounce]
    cases hb : isBoundary tgt cfg.width cfg.height <;> simp
  · intro hbounce
    simp [Core.makeMove, hw, hv, hg, willMoveBounce, hbounce]
  · intro hbounce
    simp [Core.makeMove, hw, hv, hg, willMoveBounce, hbounce, hflip st.current]
  · intro he hb
    simp [willBounce, hb, incidentDegree, dirsDeg, he]

/-- Witness for C6: the first move of a fresh 10 by 8 game onto the
untouched interior vertex (5,3) does not bounce, and the player flips. -/
theorem claim_C6_bounce_turns_witness :
    (Core.makeMove ⟨10, 8, 2⟩
        ⟨[], ⟨5, 4⟩, 0, false, none, none, computeValidMoves ⟨5, 4⟩ [] 10 8⟩
        [] ⟨5, 3⟩).2.1.current = flipPlayer 0 ∧
    (Core.makeMove ⟨10, 8, 2⟩
        ⟨[], ⟨5, 4⟩, 0, false, none, none, computeValidMoves ⟨5, 4⟩ [] 10 8⟩
        [] ⟨5, 3⟩).2.1.current ≠ 0 ∧
    (Core.makeMove ⟨10, 8, 2⟩
        ⟨[], ⟨5, 4⟩, 0, false, none, none, computeValidMoves ⟨5, 4⟩ [] 10 8⟩
        [] ⟨5, 3⟩).2.1.extraTurn = false :=
  (claim_C6_bounce_turns ⟨10, 8, 2⟩
    ⟨[], ⟨5, 4⟩, 0, false, none, none, computeValidMoves ⟨5, 4⟩ [] 10 8⟩
    [] ⟨5, 3⟩ (by decide) (by decide) (by decide)).2.2.1 (by decide)

/-- C1 counterexample: in `simulateMove` of `PaperSoccerSimple.tsx` the
winner of a goal-landing move is chosen by goal side, not by the mover:
with player 1 to move from (1,3) on the 10 by 8 board, the accepted move to
(0,3) lands in the LEFT goal region and sets the winner to player 0, not to
the active player 1 who just moved. -/
theorem claim_C1_counterexample :
    (⟨0, 3⟩ : Pos) ∈ (Simple.SimState.mk ⟨1, 3⟩ [] 1 false none false
        (computeValidMoves ⟨1, 3⟩ [] 10 8)).validMoves ∧
    Simple.isGoal ⟨0, 3⟩ 10 8 2 = some GoalSide.LEFT ∧
    (Simple.simulateMove
        (Simple.SimState.mk ⟨1, 3⟩ [] 1 false none false
          (computeValidMoves ⟨1, 3⟩ [] 10 8))
        ⟨0, 3⟩ ⟨10, 8, 2⟩ false).winner = some 0 ∧
    (Simple.simulateMove
        (Simple.SimState.mk ⟨1, 3⟩ [] 1 false none false
          (computeValidMoves ⟨1, 3⟩ [] 10 8))
        ⟨0, 3⟩ ⟨10, 8, 2⟩ false).winner ≠
      some (Simple.SimState.mk ⟨1, 3⟩ [] 1 false none false
          (computeValidMoves ⟨1, 3⟩ [] 10 8)).current := by
  refine ⟨by decide, by decide, by decide, by decide⟩

/-- C1 amended: a goal-landing accepted move ends the game with the
extra-turn flag cleared and an empty legal-move set, with the goal check
taking priority over the bounce check (no bounce hypothesis is needed), in
both engines; `GameEngine.makeMove` awards the win to the active player
who just moved, while `simulateMove` of `PaperSoccerSimple.tsx` awards it
to the player attacking the reached side (LEFT to player 0, RIGHT to
player 1), which differs from the mover exactly on own goals. -/
theorem claim_C1_goal_priority :
    (∀ (cfg : GameConfig) (st : GameState) (hist : List Move) (tgt : Pos),
      st.winner = none →
      isValidMove ⟨st.pos, tgt⟩ st.pos st.edges cfg.width cfg.height = true →
      Core.isGoal tgt cfg.width cfg.height cfg.goalWidth ≠ none →
      (Core.makeMove cfg st hist tgt).1 = true ∧
      (Core.makeMove cfg st hist tgt).2.1.winner = some st.current ∧
      (Core.makeMove cfg st hist tgt).2.1.extraTurn = false ∧
      (Core.makeMove cfg st hist tgt).2.1.validMoves = []) ∧
    (∀ (cfg : GameConfig) (st : Simple.SimState) (mv : Pos) (sad : Bool) (side : GoalSide),
      Simple.isGoal mv cfg.width cfg.height cfg.goalWidth = some side →
      (Simple.simulateMove st mv cfg sad).winner =
        some (if side = .LEFT then 0 else 1) ∧
      (Simple.simulateMove st mv cfg sad).extraTurn = false ∧
      (Simple.simulateMove st mv cfg sad).validMoves = []) := by
  constructor
  · intro cfg st hist tgt hw hv hg
    simp [Core.makeMove, hw, hv, hg]
  · intro cfg st mv sad side hside
    simp [Simple.simulateMove, Simple.createSimState, hside]

/-- Witness for C1: player 0 moving from (1,3) into the LEFT goal on the
10 by 8 board wins with the flag cleared and no legal moves left. -/
theorem claim_C1_goal_priority_witness :
    (Core.makeMove ⟨10, 8, 2⟩
        ⟨[], ⟨1, 3⟩, 0, false, none, none, computeValidMoves ⟨1, 3⟩ [] 10 8⟩
        [] ⟨0, 3⟩).1 = true ∧
    (Core.makeMove ⟨10, 8, 2⟩
        ⟨[], ⟨1, 3⟩, 0, false, none, none, computeValidMoves ⟨1, 3⟩ [] 10 8⟩
        [] ⟨0, 3⟩).2.1.winner = some 0 ∧
    (Core.makeMove ⟨10, 8, 2⟩
        ⟨[], ⟨1, 3⟩, 0, false, none, none, computeValidMoves ⟨1, 3⟩ [] 10 8⟩
        [] ⟨0, 3⟩).2.1.extraTurn = false ∧
    (Core.makeMove ⟨10, 8, 2⟩
        ⟨[], ⟨1, 3⟩, 0, false, none, none, computeValidMoves ⟨1, 3⟩ [] 10 8⟩
        [] ⟨0, 3⟩).2.1.validMoves = [] :=
  claim_C1_goal_priority.1 ⟨10, 8, 2⟩
    ⟨[], ⟨1, 3⟩, 0, false, none, none, computeValidMoves ⟨1, 3⟩ [] 10 8⟩
    [] ⟨0, 3⟩ (by decide) (by decide) (by decide)

namespace Core

/-- Proof helper: the replay loop of `simulateHistory` consumes its whole
move list (every move passes the `fromOK && toOK` check, and a goal occurs
only at the last move). -/
def replayFully (cfg : GameConfig) : List Move → List String → Pos → Prop
  | [], _, _ => True
  | mv :: rest, e, p =>
      (((mv.fro.x == p.x && mv.fro.y == p.y) &&
        isValidMove mv p e cfg.width cfg.height) = true) ∧
      (if Core.isGoal mv.tgt cfg.width cfg.height cfg.goalWidth ≠ none then rest = []
       else replayFully cfg rest (keyEdge mv.fro mv.tgt :: e) mv.tgt)

/-- Appending one move to a fully-consumed history replays the history and
then processes the appended move from the resulting loop state. -/
theorem replayLoop_append (cfg : GameConfig) (mv : Move) :
    ∀ (ms : List Move) (e : List String) (p : Pos) (c : Player) (x : Bool),
      replayFully cfg ms e p →
      replayLoop cfg (ms ++ [mv]) e p c x =
        (if (replayLoop cfg ms e p c x).winner = none
         then replayLoop cfg [mv] (replayLoop cfg ms e p c x).edges
                (replayLoop cfg ms e p c x).pos (replayLoop cfg ms e p c x).current
                (replayLoop cfg ms e p c x).extraTurn
         else replayLoop cfg ms e p c x) := by
  intro ms
  induction ms with
  | nil =>
    intro e p c x _
    simp [replayLoop]
  | cons m rest ih =>
    intro e p c x hf
    obtain ⟨hchk, hrest⟩ := hf
    by_cases hg : Core.isGoal m.tgt cfg.width cfg.height cfg.goalWidth ≠ none
    · rw [if_pos hg] at hrest
      subst hrest
      simp [replayLoop, hchk, hg]
    · rw [if_neg hg] at hrest
      simp only [List.cons_append, replayLoop, hchk, Bool.not_true, Bool.false_eq_true,
        if_false, hg, ite_false]
      exact ih _ _ _ _ hrest

/-- If the appended move passes the check at the replayed end state (and no
goal has been scored), the extended history is again fully consumed. -/
theorem replayFully_append (cfg : GameConfig) (mv : Move) :
    ∀ (ms : List Move) (e : List String) (p : Pos) (c : Player) (x : Bool),
      replayFully cfg ms e p →
      (replayLoop cfg ms e p c x).winner = none →
      ((mv.fro.x == (replayLoop cfg ms e p c x).pos.x &&
        mv.fro.y == (replayLoop cfg ms e p c x).pos.y) &&
        isValidMove mv (replayLoop cfg ms e p c x).pos (replayLoop cfg ms e p c x).edges
          cfg.width cfg.height) = true →
      replayFully cfg (ms ++ [mv]) e p := by
  intro ms
  induction ms with
  | nil =>
    intro e p c x _ hwin hchk
    simp only [replayLoop] at hchk
    refine ⟨hchk, ?_⟩
    split
    · rfl
    · trivial
  | cons m rest ih =>
    intro e p c x hf hwin hchk
    obtain ⟨hc0, hrest⟩ := hf
    by_cases hg : Core.isGoal m.tgt cfg.width cfg.height cfg.goalWidth ≠ none
    · rw [if_pos hg] at hrest
      exfalso
      simp only [replayLoop, hc0, Bool.not_true, Bool.false_eq_true, if_false, hg,
        ite_true] at hwin
      rw [if_pos hg] at hwin
      simp at hwin
    · rw [if_neg hg] at hrest
      simp only [replayLoop, hc0, Bool.not_true, Bool.false_eq_true, if_false, hg,
        ite_false] at hwin hchk
      refine ⟨hc0, ?_⟩
      rw [if_neg hg]
      exact ih _ _ _ _ hrest hwin hchk

/-- The engine invariant tying a reachable engine state to its recorded
history: the history replays fully to exactly the state's loop fields, and
the cached legal moves and blocked loser are the recomputed values. -/
def EngineInv (cfg : GameConfig) (st : GameState) (hist : List Move) : Prop :=
  replayFully cfg hist [] (centerPosition cfg.width cfg.height) ∧
  replayLoop cfg hist [] (centerPosition cfg.width cfg.height) 0 false =
    ⟨st.edges, st.pos, st.current, st.winner, st.extraTurn⟩ ∧
  st.validMoves = (if st.winner = none
    then computeValidMoves st.pos st.edges cfg.width cfg.height else []) ∧
  st.blockedLoser = (if st.winner = none ∧ st.validMoves.length == 0
    then some st.current else none)

/-- A fresh engine satisfies the invariant, provided its initial position
has at least one legal move. -/
theorem engineInv_init (cfg : GameConfig)
    (hinit : computeValidMoves (centerPosition cfg.width cfg.height) [] cfg.width
      cfg.height ≠ []) :
    EngineInv cfg (initializeGame cfg) [] := by
  refine ⟨trivial, rfl, by simp [initializeGame], ?_⟩
  simp only [initializeGame]
  rw [if_neg]
  rintro ⟨-, hlen⟩
  simp only [beq_iff_eq, List.length_eq_zero] at hlen
  exact hinit hlen

/-- One `makeMove` call (accepted or rejected) preserves the invariant. -/
theorem engineInv_step (cfg : GameConfig) (st : GameState) (hist : List Move) (tgt : Pos)
    (hinv : EngineInv cfg st hist) :
    EngineInv cfg (makeMove cfg st hist tgt).2.1 (makeMove cfg st hist tgt).2.2 := by
  obtain ⟨hfull, hloop, hvm, hbl⟩ := hinv
  by_cases hw : st.winner = none
  case neg =>
    simp only [makeMove, if_pos hw]
    exact ⟨hfull, hloop, hvm, hbl⟩
  case pos =>
    by_cases hv : isValidMove ⟨st.pos, tgt⟩ st.pos st.edges cfg.width cfg.height = true
    case neg =>
      rw [Bool.not_eq_true] at hv
      simp only [makeMove, hw, ne_eq, not_true_eq_false, if_false, hv, Bool.not_false,
        if_true, ite_true, not_false_eq_true, if_neg]
      exact ⟨hfull, hloop, hvm, hbl⟩
    case pos =>
      have hvm' : st.validMoves = computeValidMoves st.pos st.edges cfg.width cfg.height := by
        rw [hvm, if_pos hw]
      have hbl0 : st.blockedLoser = none := by
        rw [hbl, if_neg]
        rintro ⟨-, hlen⟩
        simp only [beq_iff_eq, List.length_eq_zero] at hlen
        have hmem := (mem_computeValidMoves_iff st.pos st.edges cfg.width cfg.height tgt).mpr hv
        rw [← hvm', hlen] at hmem
        simp at hmem
      have hwinr : (replayLoop cfg hist [] (centerPosition cfg.width cfg.height) 0
          false).winner = none := by
        rw [hloop]
        exact hw
      have hfull' : replayFully cfg (hist ++ [⟨st.pos, tgt⟩]) []
          (centerPosition cfg.width cfg.height) := by
        refine replayFully_append cfg ⟨st.pos, tgt⟩ hist [] _ 0 false hfull hwinr ?_
        rw [hloop]
        simp [hv]
      have happ := replayLoop_append cfg ⟨st.pos, tgt⟩ hist []
        (centerPosition cfg.width cfg.height) 0 false hfull
      rw [hloop] at happ
      simp only [hw, ite_true, if_pos] at happ
      by_cases hg : Core.isGoal tgt cfg.width cfg.height cfg.goalWidth ≠ none
      · have hstep : replayLoop cfg [⟨st.pos, tgt⟩] st.edges st.pos st.current st.extraTurn =
            ⟨keyEdge st.pos tgt :: st.edges, tgt, st.current, some st.current, false⟩ := by
          simp [replayLoop, hv, hg]
        simp only [makeMove, hw, ne_eq, not_true_eq_false, if_false, hv, Bool.not_true,
          Bool.false_eq_true, ite_false, if_pos hg]
        refine ⟨hfull', ?_, by simp, by simp [hbl0]⟩
        rw [happ, hstep]
      · rw [not_ne_iff] at hg
        have hstep : replayLoop cfg [⟨st.pos, tgt⟩] st.edges st.pos st.current st.extraTurn =
            ⟨keyEdge st.pos tgt :: st.edges, tgt,
              (if willMoveBounce ⟨st.pos, tgt⟩ st.edges cfg.width cfg.height then st.current
               else flipPlayer st.current), none,
              willMoveBounce ⟨st.pos, tgt⟩ st.edges cfg.width cfg.height⟩ := by
          simp [replayLoop, hv, hg]
        simp only [makeMove, hw, ne_eq, not_true_eq_false, if_false, hv, Bool.not_true,
          Bool.false_eq_true, ite_false, hg, not_false_eq_true]
        refine ⟨hfull', ?_, by simp [hw], ?_⟩
        · rw [happ, hstep]
        · by_cases hlen : ((computeValidMoves tgt (keyEdge st.pos tgt :: st.edges)
              cfg.width cfg.height).length == 0) = true
          · simp [hlen, hw]
          · simp [hlen, hbl0, hw]

/-- Driving the engine through any target list preserves the invariant. -/
theorem engineInv_foldl (cfg : GameConfig) (ts : List Pos) :
    ∀ acc : GameState × List Move, EngineInv cfg acc.1 acc.2 →
      EngineInv cfg
        (ts.foldl (fun acc t =>
          let r := makeMove cfg acc.1 acc.2 t
          (r.2.1, r.2.2)) acc).1
        (ts.foldl (fun acc t =>
          let r := makeMove cfg acc.1 acc.2 t
          (r.2.1, r.2.2)) acc).2 := by
  induction ts with
  | nil => intro acc h; exact h
  | cons t ts ih =>
    intro acc h
    simp only [List.foldl_cons]
    exact ih _ (engineInv_step cfg acc.1 acc.2 t h)

/-- The invariant pins `simulateHistory` down to the engine state. -/
theorem engineInv_simulateHistory (cfg : GameConfig) (st : GameState) (hist : List Move)
    (hinv : EngineInv cfg st hist) : simulateHistory cfg hist = st := by
  obtain ⟨-, hloop, hvm, hbl⟩ := hinv
  cases st with
  | mk e p c x w b v =>
    simp only at hloop hvm hbl
    simp only [simulateHistory, hloop]
    rw [← hvm, ← hbl]

end Core

/-- C4 counterexample: on the degenerate 0 by 0 board the fresh engine is
already blocked, yet `initializeGame` leaves `blockedLoser` null while
replaying the (empty) recorded history sets it to player 0, so the replayed
state differs from the engine state in the `blockedLoser` field. -/
theorem claim_C4_counterexample :
    (Core.foldMakeMove ⟨0, 0, 2⟩ []).1.blockedLoser = none ∧
    (Core.simulateHistory ⟨0, 0, 2⟩ (Core.foldMakeMove ⟨0, 0, 2⟩ []).2).blockedLoser =
      some 0 ∧
    Core.simulateHistory ⟨0, 0, 2⟩ (Core.foldMakeMove ⟨0, 0, 2⟩ []).2 ≠
      (Core.foldMakeMove ⟨0, 0, 2⟩ []).1 := by
  refine ⟨by decide, by decide, by decide⟩

/-- C4 amended: for every configuration whose fresh engine has at least one
legal move, and every sequence of attempted targets driven through
`GameEngine.makeMove` from a fresh engine, replaying the recorded history
with `simulateHistory` reproduces the engine state exactly, in every field
(edges, position, current player, extra-turn flag, winner, blockedLoser and
legal-move set). On degenerate boards whose fresh engine is already blocked
the replayed state reports `blockedLoser = player 0` while the engine holds
null; every other field always agrees. -/
theorem claim_C4_replay (cfg : GameConfig) (targets : List Pos)
    (hinit : computeValidMoves (centerPosition cfg.width cfg.height) [] cfg.width
      cfg.height ≠ []) :
    Core.simulateHistory cfg (Core.foldMakeMove cfg targets).2 =
      (Core.foldMakeMove cfg targets).1 := by
  have h := Core.engineInv_foldl cfg targets (Core.initializeGame cfg, [])
    (Core.engineInv_init cfg hinit)
  exact Core.engineInv_simulateHistory cfg _ _ (by simpa [Core.foldMakeMove] using h)

/-- Witness for C4: a concrete two-move game on the 10 by 8 board whose
recorded history replays to the exact engine state. -/
theorem claim_C4_replay_witness :
    Core.simulateHistory ⟨10, 8, 2⟩ (Core.foldMakeMove ⟨10, 8, 2⟩ [⟨5, 3⟩, ⟨4, 4⟩]).2 =
      (Core.foldMakeMove ⟨10, 8, 2⟩ [⟨5, 3⟩, ⟨4, 4⟩]).1 :=
  claim_C4_replay ⟨10, 8, 2⟩ [⟨5, 3⟩, ⟨4, 4⟩] (by decide)

namespace Core

/-- Proof helper: the prefix of a (possibly corrupt) move list that the
replay loop actually applies before stopping. -/
def appliedMoves (cfg : GameConfig) : List Move → List String → Pos → List Move
  | [], _, _ => []
  | mv :: rest, e, p =>
    let fromOK := mv.fro.x == p.x && mv.fro.y == p.y
    let toOK := isValidMove mv p e cfg.width cfg.height
    if !(fromOK && toOK) then []
    else if Core.isGoal mv.tgt cfg.width cfg.height cfg.goalWidth ≠ none then [mv]
    else mv :: appliedMoves cfg rest (keyEdge mv.fro mv.tgt :: e) mv.tgt

/-- The applied moves form an initial segment of the move list. -/
theorem appliedMoves_extends (cfg : GameConfig) :
    ∀ (ms : List Move) (e : List String) (p : Pos),
      ∃ rest, ms = appliedMoves cfg ms e p ++ rest := by
  intro ms
  induction ms with
  | nil => intro e p; exact ⟨[], rfl⟩
  | cons mv rest ih =>
    intro e p
    simp only [appliedMoves]
    by_cases hchk : ((mv.fro.x == p.x && mv.fro.y == p.y) &&
        isValidMove mv p e cfg.width cfg.height) = true
    · rw [hchk]
      by_cases hg : Core.isGoal mv.tgt cfg.width cfg.height cfg.goalWidth ≠ none
      · rw [if_pos hg]
        simp
      · rw [if_neg hg]
        simp only [Bool.not_true, Bool.false_eq_true, if_false, List.cons_append,
          List.cons.injEq, true_and]
        exact ih _ _
    · rw [Bool.not_eq_true] at hchk
      rw [hchk]
      simp

/-- Replaying a move list is the same as replaying just its applied moves:
the loop never looks past its stopping point. -/
theorem replayLoop_appliedMoves (cfg : GameConfig) :
    ∀ (ms : List Move) (e : List String) (p : Pos) (c : Player) (x : Bool),
      replayLoop cfg (appliedMoves cfg ms e p) e p c x = replayLoop cfg ms e p c x := by
  intro ms
  induction ms with
  | nil => intro e p c x; rfl
  | cons mv rest ih =>
    intro e p c x
    simp only [appliedMoves]
    by_cases hchk : ((mv.fro.x == p.x && mv.fro.y == p.y) &&
        isValidMove mv p e cfg.width cfg.height) = true
    · rw [hchk]
      by_cases hg : Core.isGoal mv.tgt cfg.width cfg.height cfg.goalWidth ≠ none
      · rw [if_pos hg]
        simp [replayLoop, hchk, hg]
      · rw [if_neg hg]
        simp only [Bool.not_true, Bool.false_eq_true, if_false]
        simp only [replayLoop, hchk, Bool.not_true, Bool.false_eq_true, if_false, hg,
          ite_false]
        exact ih _ _ _ _
    · rw [Bool.not_eq_true] at hchk
      rw [hchk]
      simp only [Bool.not_false, if_true]
      simp [replayLoop, hchk]

/-- The replay stops for a reason: whenever a move follows the applied
segment, either a goal has already been scored or that move fails the
`fromOK`/legality check at the replayed end state. -/
theorem appliedMoves_maximal (cfg : GameConfig) :
    ∀ (ms : List Move) (e : List String) (p : Pos) (c : Player) (x : Bool) (m : Move)
      (rest : List Move),
      ms = appliedMoves cfg ms e p ++ m :: rest →
      (replayLoop cfg ms e p c x).winner ≠ none ∨
      ((m.fro.x == (replayLoop cfg ms e p c x).pos.x &&
        m.fro.y == (replayLoop cfg ms e p c x).pos.y) &&
        isValidMove m (replayLoop cfg ms e p c x).pos (replayLoop cfg ms e p c x).edges
          cfg.width cfg.height) = false := by
  intro ms
  induction ms with
  | nil =>
    intro e p c x m rest hms
    simp [appliedMoves] at hms
  | cons mv tl ih =>
    intro e p c x m rest hms
    by_cases hchk : ((mv.fro.x == p.x && mv.fro.y == p.y) &&
        isValidMove mv p e cfg.width cfg.height) = true
    · by_cases hg : Core.isGoal mv.tgt cfg.width cfg.height cfg.goalWidth ≠ none
      · left
        simp [replayLoop, hchk, hg]
      · conv at hms => rw [appliedMoves]
        rw [hchk] at hms
        rw [if_neg hg] at hms
        simp only [Bool.not_true, Bool.false_eq_true, if_false, List.cons_append,
          List.cons.injEq, true_and] at hms
        have := ih (keyEdge mv.fro mv.tgt :: e) mv.tgt
          (if willMoveBounce mv e cfg.width cfg.height then c else flipPlayer c)
          (willMoveBounce mv e cfg.width cfg.height) m rest hms
        simp only [replayLoop, hchk, Bool.not_true, Bool.false_eq_true, if_false, hg,
          ite_false]
        exact this
    · rw [Bool.not_eq_true] at hchk
      conv at hms => rw [appliedMoves]
      rw [hchk] at hms
      simp only [Bool.not_false, if_true, List.nil_append] at hms
      right
      obtain ⟨rfl, -⟩ : m = mv ∧ tl = rest := by
        cases hms
        exact ⟨rfl, rfl⟩
      simp only [replayLoop, hchk, Bool.not_false, if_true]

end Core

/-- C9: for every move list, including hand-constructed invalid ones,
`simulateHistory` silently applies exactly an initial segment of the list
(`appliedMoves`), yields the same state as replaying just that segment,
and the segment is maximal: any move left unapplied follows either a goal
(winner already set) or a move failing the source/legality check at the
resulting state. Being a total function, the replay raises no error. -/
theorem claim_C9_corrupt_history (cfg : GameConfig) (hist : List Move) :
    (∃ rest, hist =
      Core.appliedMoves cfg hist [] (centerPosition cfg.width cfg.height) ++ rest) ∧
    Core.simulateHistory cfg hist =
      Core.simulateHistory cfg
        (Core.appliedMoves cfg hist [] (centerPosition cfg.width cfg.height)) ∧
    (∀ m rest,
      hist = Core.appliedMoves cfg hist [] (centerPosition cfg.width cfg.height) ++
          m :: rest →
      (Core.simulateHistory cfg hist).winner ≠ none ∨
      ((m.fro.x == (Core.simulateHistory cfg hist).pos.x &&
        m.fro.y == (Core.simulateHistory cfg hist).pos.y) &&
        isValidMove m (Core.simulateHistory cfg hist).pos
          (Core.simulateHistory cfg hist).edges cfg.width cfg.height) = false) := by
  refine ⟨Core.appliedMoves_extends cfg hist [] _, ?_, ?_⟩
  · simp only [Core.simulateHistory, Core.replayLoop_appliedMoves]
  · intro m rest hm
    exact Core.appliedMoves_maximal cfg hist [] (centerPosition cfg.width cfg.height)
      0 false m rest hm

/-- Witness for C9: a two-element history whose second move has a wrong
source vertex; the replay applies only the first move and the second fails
the check at the stopped state. -/
theorem claim_C9_corrupt_history_witness :
    (Core.simulateHistory ⟨10, 8, 2⟩
        [⟨⟨5, 4⟩, ⟨5, 3⟩⟩, ⟨⟨9, 9⟩, ⟨8, 8⟩⟩]).winner ≠ none ∨
    (((Move.mk ⟨9, 9⟩ ⟨8, 8⟩).fro.x ==
        (Core.simulateHistory ⟨10, 8, 2⟩
          [⟨⟨5, 4⟩, ⟨5, 3⟩⟩, ⟨⟨9, 9⟩, ⟨8, 8⟩⟩]).pos.x &&
      (Move.mk ⟨9, 9⟩ ⟨8, 8⟩).fro.y ==
        (Core.simulateHistory ⟨10, 8, 2⟩
          [⟨⟨5, 4⟩, ⟨5, 3⟩⟩, ⟨⟨9, 9⟩, ⟨8, 8⟩⟩]).pos.y) &&
      isValidMove ⟨⟨9, 9⟩, ⟨8, 8⟩⟩
        (Core.simulateHistory ⟨10, 8, 2⟩
          [⟨⟨5, 4⟩, ⟨5, 3⟩⟩, ⟨⟨9, 9⟩, ⟨8, 8⟩⟩]).pos
        (Core.simulateHistory ⟨10, 8, 2⟩
          [⟨⟨5, 4⟩, ⟨5, 3⟩⟩, ⟨⟨9, 9⟩, ⟨8, 8⟩⟩]).edges 10 8) = false :=
  (claim_C9_corrupt_history ⟨10, 8, 2⟩
    [⟨⟨5, 4⟩, ⟨5, 3⟩⟩, ⟨⟨9, 9⟩, ⟨8, 8⟩⟩]).2.2 ⟨⟨9, 9⟩, ⟨8, 8⟩⟩ [] (by decide)

end PaperSoccer

namespace PaperSoccer

/-- A JS `number` as used by the search scores: a rational, or the
`-Infinity` / `Infinity` sentinels that initialise `value`, `alpha`,
`beta` and `bestScore`. -/
inductive EScore where
  | negInf
  | val (q : Rat)
  | posInf
deriving DecidableEq, Repr

namespace EScore

/-- Order-embedding of `EScore` used to lift the linear order. -/
def toW : EScore → WithBot (WithTop Rat)
  | .negInf => ⊥
  | .val q => ((q : WithTop Rat) : WithBot (WithTop Rat))
  | .posInf => ((⊤ : WithTop Rat) : WithBot (WithTop Rat))

theorem toW_injective : Function.Injective toW := by
  intro a b h
  cases a <;> cases b <;> simp_all [toW]

instance : LinearOrder EScore := LinearOrder.lift' toW toW_injective

@[simp] theorem negInf_le (a : EScore) : negInf ≤ a := by
  show toW negInf ≤ toW a
  simp [toW]

@[simp] theorem le_posInf (a : EScore) : a ≤ posInf := by
  show toW a ≤ toW posInf
  cases a <;> simp [toW]

@[simp] theorem val_le_val {a b : Rat} : (val a ≤ val b) ↔ a ≤ b := by
  show toW (val a) ≤ toW (val b) ↔ a ≤ b
  simp [toW]

@[simp] theorem val_lt_val {a b : Rat} : (val a < val b) ↔ a < b := by
  show toW (val a) < toW (val b) ↔ a < b
  simp [toW]

@[simp] theorem negInf_lt_val (q : Rat) : negInf < val q := by
  show toW negInf < toW (val q)
  simp [toW]

@[simp] theorem negInf_lt_posInf : negInf < posInf := by
  show toW negInf < toW posInf
  exact WithBot.bot_lt_coe _

@[simp] theorem val_lt_posInf (q : Rat) : val q < posInf := by
  show toW (val q) < toW posInf
  simp [toW]
  exact WithBot.coe_lt_coe.mpr (WithTop.coe_lt_top q)

@[simp] theorem le_negInf_iff (a : EScore) : a ≤ negInf ↔ a = negInf := by
  constructor
  · intro h
    exact le_antisymm h (negInf_le a)
  · rintro rfl; rfl

@[simp] theorem posInf_le_iff (a : EScore) : posInf ≤ a ↔ a = posInf := by
  constructor
  · intro h
    exact le_antisymm (le_posInf a) h
  · rintro rfl; rfl

end EScore

end PaperSoccer
namespace PaperSoccer

/-- `WIN_SCORE` from `PaperSoccerSimple.tsx`. -/
def WIN_SCORE : Rat := 100000
/-- `LOSS_SCORE = -WIN_SCORE`. -/
def LOSS_SCORE : Rat := -WIN_SCORE

namespace Simple

/-- `evaluateState` from `PaperSoccerSimple.tsx`: the heuristic position
score (agent-maximising), with the JS float weights carried exactly as
rationals. -/
def evaluateState (state : SimState) (config : GameConfig) (goalCenter : Rat) : Rat :=
  if state.winner ≠ none then
    (if state.winner = some 1 then WIN_SCORE else LOSS_SCORE)
  else if state.draw then 0
  else
    let score : Rat := ((state.pos.x : Rat) - (config.width : Rat) / 2) * 26
    let score := score - |goalCenter - (state.pos.y : Rat)| * 9
    let aiProgress := state.pos.x
    let humanProgress := config.width - state.pos.x
    let score := score + ((aiProgress : Rat) - (humanProgress : Rat)) * 4
    let edgeDistanceX := min state.pos.x (config.width - state.pos.x)
    let edgeDistanceY := min state.pos.y (config.height - state.pos.y)
    let score := score + (edgeDistanceX : Rat) * 3.5
    let score := score + (edgeDistanceY : Rat) * 2.5
    let availableMoves := if state.validMoves.length > 0 then state.validMoves
      else computeValidMoves state.pos state.edges config.width config.height
    let mobility := availableMoves.length
    let score := score + (if state.current = 1 then 1 else -1) * (mobility : Rat) * 3.5
    let opponentMoves := computeValidMoves state.pos state.edges config.width config.height
    let score := score - (opponentMoves.length : Rat) * 1.6
    let aiImmediateGoal := availableMoves.any fun m =>
      Simple.isGoal m config.width config.height config.goalWidth == some .RIGHT
    let humanImmediateGoal := availableMoves.any fun m =>
      Simple.isGoal m config.width config.height config.goalWidth == some .LEFT
    let opponentImmediateGoal := opponentMoves.any fun m =>
      Simple.isGoal m config.width config.height config.goalWidth == some .LEFT
    let score := if aiImmediateGoal then score + 200 else score
    let score := if humanImmediateGoal then score - 220 else score
    let score := if opponentImmediateGoal then score - 260 else score
    let score := if edgeDistanceX ≤ 1 ∨ edgeDistanceY ≤ 1 then score - 45 else score
    score

/-- `shouldExtendSearch` from `PaperSoccerSimple.tsx`: the quiescence
trigger (pending extra turn, at most two replies, or a goal threat for
either side). -/
def shouldExtendSearch (state : SimState) (config : GameConfig) : Bool :=
  if state.extraTurn then true
  else if state.winner ≠ none ∨ state.draw then false
  else
    let moves := if state.validMoves.length > 0 then state.validMoves
      else computeValidMoves state.pos state.edges config.width config.height
    if moves.length ≤ 2 then true
    else if moves.any fun m =>
        (Simple.isGoal m config.width config.height config.goalWidth).isSome then true
    else (computeValidMoves state.pos state.edges config.width config.height).any fun m =>
      (Simple.isGoal m config.width config.height config.goalWidth).isSome

/-- `TranspositionEntry` from `PaperSoccerSimple.tsx`. -/
structure TranspositionEntry where
  depth : Nat
  value : EScore
deriving DecidableEq, Repr

/-- The transposition `Map<string, TranspositionEntry>` modelled as an
association list. -/
abbrev Cache := List (String × TranspositionEntry)

/-- `Map.get`. -/
def cacheGet (c : Cache) (k : String) : Option TranspositionEntry :=
  (c.find? fun e => e.1 == k).map (·.2)

/-- `Map.set` (replace or append). -/
def cacheSet : Cache → String → TranspositionEntry → Cache
  | [], k, v => [(k, v)]
  | (k', v') :: rest, k, v =>
    if k' == k then (k, v) :: rest else (k', v') :: cacheSet rest k v

/-- `buildStateKey` from `PaperSoccerSimple.tsx`: the normalised cache key
(sorted edge keys, sorted move keys, position, player, flags, counts). -/
def buildStateKey (state : SimState) : String :=
  let edgesKey := String.intercalate ";" (state.edges.mergeSort fun a b => decide (a ≤ b))
  let movesKey := String.intercalate ";"
    ((state.validMoves.map fun m => toString m.x ++ "," ++ toString m.y).mergeSort
      fun a b => decide (a ≤ b))
  String.intercalate "|"
    [toString state.pos.x, toString state.pos.y, toString state.current.val,
     (if state.extraTurn then "1" else "0"), toString state.validMoves.length,
     (match state.winner with
      | some w => toString w.val
      | none => "null"),
     (if state.draw then "1" else "0"), movesKey, edgesKey]

mutual

/-- `minimax` from `PaperSoccerSimple.tsx`: alpha-beta search with the
optional transposition cache threaded explicitly (the JS code mutates the
`Map` in place); returns the value and the updated cache. The `for` loops
over moves are the mutual `minimaxListMax` / `minimaxListMin`. -/
def minimax (state : SimState) (depth : Nat) (config : GameConfig) (goalCenter : Rat)
    (stalemateAsDraw : Bool) (alpha beta : EScore) (allowQuiescence : Bool)
    (cache : Option Cache) : EScore × Option Cache :=
  let hit : Option EScore :=
    match cache with
    | some c =>
      match cacheGet c (buildStateKey state) with
      | some entry => if depth ≤ entry.depth then some entry.value else none
      | none => none
    | none => none
  match hit with
  | some v => (v, cache)
  | none =>
    if h0 : depth = 0 ∨ state.winner ≠ none ∨ state.draw then
      if h : depth = 0 ∧ allowQuiescence ∧ shouldExtendSearch state config then
        let r := minimax state 1 config goalCenter stalemateAsDraw alpha beta false cache
        (r.1, r.2.map fun c => cacheSet c (buildStateKey state) ⟨depth, r.1⟩)
      else
        let evaluation := EScore.val (evaluateState state config goalCenter)
        (evaluation, cache.map fun c => cacheSet c (buildStateKey state) ⟨depth, evaluation⟩)
    else
      let moves := if state.validMoves.length > 0 then state.validMoves
        else computeValidMoves state.pos state.edges config.width config.height
      if moves.length = 0 then
        (if stalemateAsDraw then (EScore.val 0, cache)
         else if state.current = 1 then (EScore.val LOSS_SCORE, cache)
         else (EScore.val WIN_SCORE, cache))
      else if state.current = 1 then
        let r := minimaxListMax moves state (depth - 1) config goalCenter stalemateAsDraw
          alpha beta allowQuiescence EScore.negInf cache
        (r.1, r.2.map fun c => cacheSet c (buildStateKey state) ⟨depth, r.1⟩)
      else
        let r := minimaxListMin moves state (depth - 1) config goalCenter stalemateAsDraw
          alpha beta allowQuiescence EScore.posInf cache
        (r.1, r.2.map fun c => cacheSet c (buildStateKey state) ⟨depth, r.1⟩)
termination_by (2 * depth + (if allowQuiescence then 3 else 0), 0)
decreasing_by
  · rcases h with ⟨-, hq, -⟩
    simp [hq]
    apply Prod.Lex.left
    omega
  · have hd : depth ≠ 0 := fun hh => h0 (Or.inl hh)
    apply Prod.Lex.left
    omega
  · have hd : depth ≠ 0 := fun hh => h0 (Or.inl hh)
    apply Prod.Lex.left
    omega

def minimaxListMax (moves : List Pos) (state : SimState) (depth : Nat) (config : GameConfig)
    (goalCenter : Rat) (stalemateAsDraw : Bool) (alpha beta : EScore)
    (allowQuiescence : Bool) (value : EScore) (cache : Option Cache) :
    EScore × Option Cache :=
  match moves with
  | [] => (value, cache)
  | m :: rest =>
    let next := simulateMove state m config stalemateAsDraw
    let r := minimax next depth config goalCenter stalemateAsDraw alpha beta
      allowQuiescence cache
    let value' := max value r.1
    let alpha' := max alpha value'
    if beta ≤ alpha' then (value', r.2)
    else minimaxListMax rest state depth config goalCenter stalemateAsDraw alpha' beta
      allowQuiescence value' r.2
termination_by (2 * depth + (if allowQuiescence then 3 else 0) + 1, moves.length)
decreasing_by
  · apply Prod.Lex.left
    omega
  · apply Prod.Lex.right
    simp

def minimaxListMin (moves : List Pos) (state : SimState) (depth : Nat) (config : GameConfig)
    (goalCenter : Rat) (stalemateAsDraw : Bool) (alpha beta : EScore)
    (allowQuiescence : Bool) (value : EScore) (cache : Option Cache) :
    EScore × Option Cache :=
  match moves with
  | [] => (value, cache)
  | m :: rest =>
    let next := simulateMove state m config stalemateAsDraw
    let r := minimax next depth config goalCenter stalemateAsDraw alpha beta
      allowQuiescence cache
    let value' := min value r.1
    let beta' := min beta value'
    if beta' ≤ alpha then (value', r.2)
    else minimaxListMin rest state depth config goalCenter stalemateAsDraw alpha beta'
      allowQuiescence value' r.2
termination_by (2 * depth + (if allowQuiescence then 3 else 0) + 1, moves.length)
decreasing_by
  · apply Prod.Lex.left
    omega
  · apply Prod.Lex.right
    simp

end

end Simple
end PaperSoccer
namespace PaperSoccer
namespace Simple

mutual

/-- The exhaustive reference search: `minimax` with the alpha-beta cutoff
branches removed (and no cache), maximising and minimising over the whole
move list. -/
def minimaxFull (state : SimState) (depth : Nat) (config : GameConfig) (goalCenter : Rat)
    (stalemateAsDraw : Bool) : EScore :=
  if h0 : depth = 0 ∨ state.winner ≠ none ∨ state.draw then
    EScore.val (evaluateState state config goalCenter)
  else
    let moves := if state.validMoves.length > 0 then state.validMoves
      else computeValidMoves state.pos state.edges config.width config.height
    if moves.length = 0 then
      (if stalemateAsDraw then EScore.val 0
       else if state.current = 1 then EScore.val LOSS_SCORE else EScore.val WIN_SCORE)
    else if state.current = 1 then
      minimaxFullListMax moves state (depth - 1) config goalCenter stalemateAsDraw
        EScore.negInf
    else
      minimaxFullListMin moves state (depth - 1) config goalCenter stalemateAsDraw
        EScore.posInf
termination_by (2 * depth, 0)
decreasing_by
  · have hd : depth ≠ 0 := fun hh => h0 (Or.inl hh)
    apply Prod.Lex.left
    omega
  · have hd : depth ≠ 0 := fun hh => h0 (Or.inl hh)
    apply Prod.Lex.left
    omega

def minimaxFullListMax (moves : List Pos) (state : SimState) (depth : Nat)
    (config : GameConfig) (goalCenter : Rat) (stalemateAsDraw : Bool) (value : EScore) :
    EScore :=
  match moves with
  | [] => value
  | m :: rest =>
    let next := simulateMove state m config stalemateAsDraw
    let evaluation := minimaxFull next depth config goalCenter stalemateAsDraw
    minimaxFullListMax rest state depth config goalCenter stalemateAsDraw
      (max value evaluation)
termination_by (2 * depth + 1, moves.length)
decreasing_by
  · apply Prod.Lex.left
    omega
  · apply Prod.Lex.right
    simp

def minimaxFullListMin (moves : List Pos) (state : SimState) (depth : Nat)
    (config : GameConfig) (goalCenter : Rat) (stalemateAsDraw : Bool) (value : EScore) :
    EScore :=
  match moves with
  | [] => value
  | m :: rest =>
    let next := simulateMove state m config stalemateAsDraw
    let evaluation := minimaxFull next depth config goalCenter stalemateAsDraw
    minimaxFullListMin rest state depth config goalCenter stalemateAsDraw
      (min value evaluation)
termination_by (2 * depth + 1, moves.length)
decreasing_by
  · apply Prod.Lex.left
    omega
  · apply Prod.Lex.right
    simp

end

theorem minimax_none_snd :
    ∀ (n : Nat) (state : SimState) (depth : Nat) (config : GameConfig) (gc : Rat)
      (sad : Bool) (alpha beta : EScore) (q : Bool),
      2 * depth + (if q then 3 else 0) ≤ n →
      (minimax state depth config gc sad alpha beta q none).2 = none := by
  intro n
  induction n using Nat.strong_induction_on with
  | _ n ih =>
    intro state depth config gc sad alpha beta q hb
    have hlistMax : ∀ (moves : List Pos) (α v : EScore),
        depth ≠ 0 →
        (minimaxListMax moves state (depth - 1) config gc sad α beta q v none).2 =
          none := by
      intro moves
      induction moves with
      | nil => intro α v hd; simp [minimaxListMax]
      | cons m rest ihm =>
        intro α v hd
        rw [minimaxListMax]
        have hc : (minimax (simulateMove state m config sad) (depth - 1) config gc sad
            α beta q none).2 = none := by
          apply ih (2 * (depth - 1) + (if q then 3 else 0))
            (by cases q <;> simp_all <;> omega)
          omega
        simp only [hc]
        split
        · rfl
        · exact ihm _ _ hd
    have hlistMin : ∀ (moves : List Pos) (β v : EScore),
        depth ≠ 0 →
        (minimaxListMin moves state (depth - 1) config gc sad alpha β q v none).2 =
          none := by
      intro moves
      induction moves with
      | nil => intro β v hd; simp [minimaxListMin]
      | cons m rest ihm =>
        intro β v hd
        rw [minimaxListMin]
        have hc : (minimax (simulateMove state m config sad) (depth - 1) config gc sad
            alpha β q none).2 = none := by
          apply ih (2 * (depth - 1) + (if q then 3 else 0))
            (by cases q <;> simp_all <;> omega)
          omega
        simp only [hc]
        split
        · rfl
        · exact ihm _ _ hd
    rw [minimax]
    simp only []
    by_cases h0 : depth = 0 ∨ state.winner ≠ none ∨ state.draw = true
    · rw [dif_pos h0]
      by_cases hext : depth = 0 ∧ q = true ∧ shouldExtendSearch state config = true
      · rw [dif_pos hext]
        have hr : (minimax state 1 config gc sad alpha beta false none).2 = none := by
          apply ih 2 (by simp_all; omega)
          simp
        simp [hr]
      · rw [dif_neg hext]
        simp
    · rw [dif_neg h0]
      have hd : depth ≠ 0 := fun hh => h0 (Or.inl hh)
      split <;> split
      · split
        · rfl
        · split <;> rfl
      · split
        · simp [hlistMax _ _ _ hd]
        · simp [hlistMin _ _ _ hd]
      · split
        · rfl
        · split <;> rfl
      · split
        · simp [hlistMax _ _ _ hd]
        · simp [hlistMin _ _ _ hd]

theorem minimaxFullListMax_max (state : SimState) (d : Nat) (config : GameConfig)
    (gc : Rat) (sad : Bool) :
    ∀ (moves : List Pos) (a b : EScore),
      minimaxFullListMax moves state d config gc sad (max a b) =
        max a (minimaxFullListMax moves state d config gc sad b) := by
  intro moves
  induction moves with
  | nil => intro a b; simp [minimaxFullListMax]
  | cons m rest ih =>
    intro a b
    rw [minimaxFullListMax, minimaxFullListMax]
    rw [max_assoc]
    exact ih a _

theorem minimaxFullListMin_min (state : SimState) (d : Nat) (config : GameConfig)
    (gc : Rat) (sad : Bool) :
    ∀ (moves : List Pos) (a b : EScore),
      minimaxFullListMin moves state d config gc sad (min a b) =
        min a (minimaxFullListMin moves state d config gc sad b) := by
  intro moves
  induction moves with
  | nil => intro a b; simp [minimaxFullListMin]
  | cons m rest ih =>
    intro a b
    rw [minimaxFullListMin, minimaxFullListMin]
    rw [min_assoc]
    exact ih a _

/-- Fail-soft admissibility of an alpha-beta result `g` against the true
value `v` in the window `(a, b)`. -/
def Adm (g v a b : EScore) : Prop :=
  (g ≤ a → v ≤ g) ∧ (b ≤ g → g ≤ v) ∧ (a < g → g < b → g = v)

theorem adm_self (g a b : EScore) : Adm g g a b :=
  ⟨fun _ => le_refl g, fun _ => le_refl g, fun _ _ => rfl⟩

theorem le_max_right_of_left_lt {g x y : EScore} (h : g ≤ max x y) (hx : x < g) : g ≤ y := by
  rcases le_max_iff.mp h with h1 | h1
  · exact absurd h1 (not_le.mpr hx)
  · exact h1

theorem loopMax_adm (state : SimState) (d : Nat) (config : GameConfig) (gc : Rat)
    (sad : Bool)
    (hchild : ∀ (m : Pos) (a b : EScore), a < b →
      Adm ((minimax (simulateMove state m config sad) d config gc sad a b false none).1)
          (minimaxFull (simulateMove state m config sad) d config gc sad) a b) :
    ∀ (moves : List Pos) (a b v0 : EScore), a < b → v0 ≤ a →
      Adm ((minimaxListMax moves state d config gc sad a b false v0 none).1)
          (minimaxFullListMax moves state d config gc sad v0) a b := by
  intro moves
  induction moves with
  | nil =>
    intro a b v0 hab hva
    rw [minimaxListMax, minimaxFullListMax]
    exact adm_self v0 a b
  | cons m rest ih =>
    intro a b v0 hab hva
    have hnone : (minimax (simulateMove state m config sad) d config gc sad a b false
        none).2 = none := by
      apply minimax_none_snd (2 * d + (if false then 3 else 0))
      omega
    have hEW := hchild m a b hab
    set e := (minimax (simulateMove state m config sad) d config gc sad a b false none).1
      with he_def
    set w := minimaxFull (simulateMove state m config sad) d config gc sad with hw_def
    set R := minimaxFullListMax rest state d config gc sad v0 with hR_def
    have hVfull : minimaxFullListMax rest state d config gc sad (max v0 w) = max w R := by
      rw [max_comm v0 w, minimaxFullListMax_max]
    have halpha : max a (max v0 e) = max a e := by
      rw [← max_assoc, max_eq_left hva]
    rw [minimaxListMax, minimaxFullListMax]
    simp only [← he_def, ← hw_def, hnone, halpha, hVfull]
    by_cases hbr : b ≤ max a e
    · rw [if_pos hbr]
      have heb : b ≤ e := by
        rcases max_cases a e with ⟨hm, -⟩ | ⟨hm, -⟩
        · rw [hm] at hbr
          exact absurd hbr (not_le.mpr hab)
        · rw [hm] at hbr
          exact hbr
      have hge : max v0 e = e := max_eq_right (le_trans hva (le_of_lt (lt_of_lt_of_le hab heb)))
      rw [hge]
      have hew : e ≤ w := hEW.2.1 heb
      refine ⟨?_, ?_, ?_⟩
      · intro hga
        exact absurd (lt_of_lt_of_le hab (le_trans heb hga)) (lt_irrefl a)
      · intro _
        exact le_trans hew (le_max_left w R)
      · intro _ hgb
        exact absurd (lt_of_le_of_lt heb hgb) (lt_irrefl b)
    · rw [if_neg hbr]
      have hab' : max a e < b := not_le.mp hbr
      have hva' : max v0 e ≤ max a e := max_le_max hva (le_refl e)
      have hIH := ih (max a e) b (max v0 e) hab' hva'
      have hV_ih : minimaxFullListMax rest state d config gc sad (max v0 e) = max e R := by
        rw [max_comm v0 e, minimaxFullListMax_max]
      rw [hV_ih] at hIH
      set g := (minimaxListMax rest state d config gc sad (max a e) b false (max v0 e)
        none).1 with hg_def
      rcases le_or_lt e a with he | he
      · have haa : max a e = a := max_eq_left he
        rw [haa] at hIH
        have hwe : w ≤ e := hEW.1 he
        refine ⟨?_, ?_, ?_⟩
        · intro hga
          have h1 : max e R ≤ g := hIH.1 hga
          calc max w R ≤ max e R := max_le_max hwe (le_refl R)
            _ ≤ g := h1
        · intro hbg
          have h1 : g ≤ max e R := hIH.2.1 hbg
          have h2 : e < g := lt_of_le_of_lt he (lt_of_lt_of_le hab hbg)
          have h3 : g ≤ R := le_max_right_of_left_lt h1 h2
          exact le_trans h3 (le_max_right w R)
        · intro hag hgb
          have h1 : g = max e R := hIH.2.2 hag hgb
          have h2 : e < g := lt_of_le_of_lt he hag
          have h3 : g ≤ R := le_max_right_of_left_lt (le_of_eq h1) h2
          have h4 : R ≤ g := by
            rw [h1]
            exact le_max_right e R
          have h5 : g = R := le_antisymm h3 h4
          rw [h5]
          have h6 : w < R := lt_of_le_of_lt hwe (h5 ▸ h2)
          rw [max_eq_right (le_of_lt h6)]
      · have haa : max a e = e := max_eq_right (le_of_lt he)
        rw [haa] at hIH
        have heb : e < b := lt_of_le_of_lt (le_max_right a e) hab'
        have hew : e = w := hEW.2.2 he heb
        rw [← hew]
        refine ⟨?_, ?_, ?_⟩
        · intro hga
          exact hIH.1 (le_trans hga (le_of_lt he))
        · intro hbg
          exact hIH.2.1 hbg
        · intro hag hgb
          rcases le_or_lt g e with hge | hge
          · have h1 : max e R ≤ g := hIH.1 hge
            have h2 : g ≤ max e R := le_trans hge (le_max_left e R)
            exact le_antisymm h2 h1
          · exact hIH.2.2 hge hgb

theorem min_le_right_of_left_lt {g x y : EScore} (h : min x y ≤ g) (hx : g < x) : y ≤ g := by
  rcases min_le_iff.mp h with h1 | h1
  · exact absurd h1 (not_le.mpr hx)
  · exact h1

theorem loopMin_adm (state : SimState) (d : Nat) (config : GameConfig) (gc : Rat)
    (sad : Bool)
    (hchild : ∀ (m : Pos) (a b : EScore), a < b →
      Adm ((minimax (simulateMove state m config sad) d config gc sad a b false none).1)
          (minimaxFull (simulateMove state m config sad) d config gc sad) a b) :
    ∀ (moves : List Pos) (a b v0 : EScore), a < b → b ≤ v0 →
      Adm ((minimaxListMin moves state d config gc sad a b false v0 none).1)
          (minimaxFullListMin moves state d config gc sad v0) a b := by
  intro moves
  induction moves with
  | nil =>
    intro a b v0 hab hbv
    rw [minimaxListMin, minimaxFullListMin]
    exact adm_self v0 a b
  | cons m rest ih =>
    intro a b v0 hab hbv
    have hnone : (minimax (simulateMove state m config sad) d config gc sad a b false
        none).2 = none := by
      apply minimax_none_snd (2 * d + (if false then 3 else 0))
      omega
    have hEW := hchild m a b hab
    set e := (minimax (simulateMove state m config sad) d config gc sad a b false none).1
      with he_def
    set w := minimaxFull (simulateMove state m config sad) d config gc sad with hw_def
    set R := minimaxFullListMin rest state d config gc sad v0 with hR_def
    have hVfull : minimaxFullListMin rest state d config gc sad (min v0 w) = min w R := by
      rw [min_comm v0 w, minimaxFullListMin_min]
    have hbeta : min b (min v0 e) = min b e := by
      rw [← min_assoc, min_eq_left hbv]
    rw [minimaxListMin, minimaxFullListMin]
    simp only [← he_def, ← hw_def, hnone, hbeta, hVfull]
    by_cases hbr : min b e ≤ a
    · rw [if_pos hbr]
      have hea : e ≤ a := by
        rcases min_cases b e with ⟨hm, -⟩ | ⟨hm, -⟩
        · rw [hm] at hbr
          exact absurd hbr (not_le.mpr hab)
        · rw [hm] at hbr
          exact hbr
      have hge : min v0 e = e :=
        min_eq_right (le_trans (le_of_lt (lt_of_le_of_lt hea hab)) hbv)
      rw [hge]
      have hwe : w ≤ e := hEW.1 hea
      refine ⟨?_, ?_, ?_⟩
      · intro _
        exact le_trans (min_le_left w R) hwe
      · intro hbg
        exact absurd (lt_of_le_of_lt (le_trans hbg hea) hab) (lt_irrefl b)
      · intro hag _
        exact absurd (lt_of_lt_of_le hag hea) (lt_irrefl a)
    · rw [if_neg hbr]
      have hab' : a < min b e := not_le.mp hbr
      have hbv' : min b e ≤ min v0 e := min_le_min hbv (le_refl e)
      have hIH := ih a (min b e) (min v0 e) hab' hbv'
      have hV_ih : minimaxFullListMin rest state d config gc sad (min v0 e) = min e R := by
        rw [min_comm v0 e, minimaxFullListMin_min]
      rw [hV_ih] at hIH
      set g := (minimaxListMin rest state d config gc sad a (min b e) false (min v0 e)
        none).1 with hg_def
      rcases le_or_lt b e with heb | heb
      · have hbb : min b e = b := min_eq_left heb
        rw [hbb] at hIH
        have hew : e ≤ w := hEW.2.1 heb
        refine ⟨?_, ?_, ?_⟩
        · intro hga
          have h2 : g < e := lt_of_le_of_lt hga (lt_of_lt_of_le hab heb)
          have h3 : R ≤ g := min_le_right_of_left_lt (hIH.1 hga) h2
          exact le_trans (min_le_right w R) h3
        · intro hbg
          have h1 : g ≤ min e R := hIH.2.1 hbg
          exact le_min (le_trans (le_min_iff.mp h1).1 hew) (le_min_iff.mp h1).2
        · intro hag hgb
          have h1 : g = min e R := hIH.2.2 hag hgb
          have h2 : g < e := lt_of_lt_of_le hgb heb
          have h3 : R ≤ g := min_le_right_of_left_lt (le_of_eq h1.symm) h2
          have h4 : g ≤ R := h1 ▸ min_le_right e R
          have h5 : g = R := le_antisymm h4 h3
          rw [h5]
          have h6 : R < w := lt_of_lt_of_le (h5 ▸ h2) hew
          rw [min_eq_right (le_of_lt h6)]
      · have hbb : min b e = e := min_eq_right (le_of_lt heb)
        rw [hbb] at hIH
        have hae : a < e := lt_of_lt_of_le hab' (min_le_right b e)
        have hew : e = w := hEW.2.2 hae heb
        rw [← hew]
        refine ⟨?_, ?_, ?_⟩
        · intro hga
          exact hIH.1 hga
        · intro hbg
          exact hIH.2.1 (le_trans (le_of_lt heb) hbg)
        · intro hag hgb
          rcases le_or_lt e g with hge | hge
          · have h1 : g ≤ min e R := hIH.2.1 hge
            exact le_antisymm h1 (le_trans (min_le_left e R) hge)
          · exact hIH.2.2 hag hge

theorem minimax_adm (config : GameConfig) (gc : Rat) (sad : Bool) :
    ∀ (d : Nat) (state : SimState) (a b : EScore), a < b →
      Adm ((minimax state d config gc sad a b false none).1)
          (minimaxFull state d config gc sad) a b := by
  intro d
  induction d with
  | zero =>
    intro state a b hab
    have h1 : (minimax state 0 config gc sad a b false none).1 =
        EScore.val (evaluateState state config gc) := by
      rw [minimax]
      simp
    have h2 : minimaxFull state 0 config gc sad =
        EScore.val (evaluateState state config gc) := by
      rw [minimaxFull]
      simp
    rw [h1, h2]
    exact adm_self _ a b
  | succ d ihd =>
    intro state a b hab
    have hchild : ∀ (m : Pos) (a' b' : EScore), a' < b' →
        Adm ((minimax (simulateMove state m config sad) d config gc sad a' b' false
          none).1)
          (minimaxFull (simulateMove state m config sad) d config gc sad) a' b' :=
      fun m a' b' h => ihd (simulateMove state m config sad) a' b' h
    by_cases h0 : d + 1 = 0 ∨ state.winner ≠ none ∨ state.draw = true
    · have hX : state.winner ≠ none ∨ state.draw = true := by
        rcases h0 with h | h
        · omega
        · exact h
      have h1 : (minimax state (d + 1) config gc sad a b false none).1 =
          EScore.val (evaluateState state config gc) := by
        rw [minimax]
        simp [hX]
      have h2 : minimaxFull state (d + 1) config gc sad =
          EScore.val (evaluateState state config gc) := by
        rw [minimaxFull]
        simp [hX]
      rw [h1, h2]
      exact adm_self _ a b
    · obtain ⟨-, hno⟩ := not_or.mp h0
      obtain ⟨hw', hd'⟩ := not_or.mp hno
      have hw : state.winner = none := not_not.mp hw'
      have hdr : state.draw = false := by simpa using hd'
      by_cases hvm : state.validMoves.length > 0
      · have hne : state.validMoves ≠ [] := by
          intro h
          rw [h] at hvm
          simp at hvm
        by_cases hcur : state.current = 1
        · have h1 : (minimax state (d + 1) config gc sad a b false none).1 =
              (minimaxListMax state.validMoves state d config gc sad a b false
                EScore.negInf none).1 := by
            rw [minimax]
            simp [hw, hdr, hvm, hne, hcur]
          have h2 : minimaxFull state (d + 1) config gc sad =
              minimaxFullListMax state.validMoves state d config gc sad EScore.negInf := by
            rw [minimaxFull]
            simp [hw, hdr, hvm, hne, hcur]
          rw [h1, h2]
          exact loopMax_adm state d config gc sad hchild state.validMoves a b
            EScore.negInf hab (EScore.negInf_le a)
        · have h1 : (minimax state (d + 1) config gc sad a b false none).1 =
              (minimaxListMin state.validMoves state d config gc sad a b false
                EScore.posInf none).1 := by
            rw [minimax]
            simp [hw, hdr, hvm, hne, hcur]
          have h2 : minimaxFull state (d + 1) config gc sad =
              minimaxFullListMin state.validMoves state d config gc sad EScore.posInf := by
            rw [minimaxFull]
            simp [hw, hdr, hvm, hne, hcur]
          rw [h1, h2]
          exact loopMin_adm state d config gc sad hchild state.validMoves a b
            EScore.posInf hab (EScore.le_posInf b)
      · by_cases hlen : computeValidMoves state.pos state.edges config.width
            config.height = []
        · have h1 : (minimax state (d + 1) config gc sad a b false none).1 =
              (if sad then EScore.val 0
               else if state.current = 1 then EScore.val LOSS_SCORE
               else EScore.val WIN_SCORE) := by
            rw [minimax]
            simp [hw, hdr, hvm, hlen]
            split
            · rfl
            · split <;> rfl
          have h2 : minimaxFull state (d + 1) config gc sad =
              (if sad then EScore.val 0
               else if state.current = 1 then EScore.val LOSS_SCORE
               else EScore.val WIN_SCORE) := by
            rw [minimaxFull]
            simp [hw, hdr, hvm, hlen]
          rw [h1, h2]
          exact adm_self _ a b
        · by_cases hcur : state.current = 1
          · have h1 : (minimax state (d + 1) config gc sad a b false none).1 =
                (minimaxListMax (computeValidMoves state.pos state.edges config.width
                    config.height) state d config gc sad a b false
                  EScore.negInf none).1 := by
              rw [minimax]
              simp [hw, hdr, hvm, hlen, hcur]
            have h2 : minimaxFull state (d + 1) config gc sad =
                minimaxFullListMax (computeValidMoves state.pos state.edges config.width
                  config.height) state d config gc sad EScore.negInf := by
              rw [minimaxFull]
              simp [hw, hdr, hvm, hlen, hcur]
            rw [h1, h2]
            exact loopMax_adm state d config gc sad hchild
              (computeValidMoves state.pos state.edges config.width config.height) a b
              EScore.negInf hab (EScore.negInf_le a)
          · have h1 : (minimax state (d + 1) config gc sad a b false none).1 =
                (minimaxListMin (computeValidMoves state.pos state.edges config.width
                    config.height) state d config gc sad a b false
                  EScore.posInf none).1 := by
              rw [minimax]
              simp [hw, hdr, hvm, hlen, hcur]
            have h2 : minimaxFull state (d + 1) config gc sad =
                minimaxFullListMin (computeValidMoves state.pos state.edges config.width
                  config.height) state d config gc sad EScore.posInf := by
              rw [minimaxFull]
              simp [hw, hdr, hvm, hlen, hcur]
            rw [h1, h2]
            exact loopMin_adm state d config gc sad hchild
              (computeValidMoves state.pos state.edges config.width config.height) a b
              EScore.posInf hab (EScore.le_posInf b)

/-- C7: for every SimState, search depth, outcome policy and goal centre,
with the quiescence extension disabled and no transposition cache
supplied, alpha-beta `minimax` called on the full window (alpha = -inf,
beta = +inf) returns exactly the value of the exhaustive minimax over the
identical game tree (the same recursion with the cutoff branches
removed). -/
theorem claim_C7_alphabeta_equivalence (state : SimState) (d : Nat) (config : GameConfig) (gc : Rat)
    (sad : Bool) :
    (minimax state d config gc sad EScore.negInf EScore.posInf false none).1 =
      minimaxFull state d config gc sad := by
  have h := minimax_adm config gc sad d state EScore.negInf EScore.posInf
    EScore.negInf_lt_posInf
  set g := (minimax state d config gc sad EScore.negInf EScore.posInf false none).1
  set v := minimaxFull state d config gc sad
  rcases le_or_lt g EScore.negInf with hg | hg
  · have hgeq : g = EScore.negInf := (EScore.le_negInf_iff g).mp hg
    have hv : v ≤ g := h.1 hg
    rw [hgeq] at hv
    rw [hgeq, ((EScore.le_negInf_iff v).mp hv)]
  · rcases le_or_lt EScore.posInf g with hg2 | hg2
    · have hgeq : g = EScore.posInf := (EScore.posInf_le_iff g).mp hg2
      have hv : g ≤ v := h.2.1 hg2
      rw [hgeq] at hv
      rw [hgeq, (EScore.posInf_le_iff v).mp hv]
    · exact h.2.2 hg hg2

mutual

/-- `minimax` instrumented with explicit call-nesting fuel: one unit is
consumed on each nested `minimax` entry and `none` is returned when the
fuel runs out, making the recursion structure of the search observable. -/
def minimaxFuel (fuel : Nat) (state : SimState) (depth : Nat) (config : GameConfig)
    (goalCenter : Rat) (stalemateAsDraw : Bool) (alpha beta : EScore)
    (allowQuiescence : Bool) (cache : Option Cache) : Option (EScore × Option Cache) :=
  match fuel with
  | 0 => none
  | fuel + 1 =>
    let hit : Option EScore :=
      match cache with
      | some c =>
        match cacheGet c (buildStateKey state) with
        | some entry => if depth ≤ entry.depth then some entry.value else none
        | none => none
      | none => none
    match hit with
    | some v => some (v, cache)
    | none =>
      if depth = 0 ∨ state.winner ≠ none ∨ state.draw then
        if depth = 0 ∧ allowQuiescence ∧ shouldExtendSearch state config then
          match minimaxFuel fuel state 1 config goalCenter stalemateAsDraw alpha beta
            false cache with
          | none => none
          | some r =>
            some (r.1, r.2.map fun c => cacheSet c (buildStateKey state) ⟨depth, r.1⟩)
        else
          let evaluation := EScore.val (evaluateState state config goalCenter)
          some (evaluation,
            cache.map fun c => cacheSet c (buildStateKey state) ⟨depth, evaluation⟩)
      else
        let moves := if state.validMoves.length > 0 then state.validMoves
          else computeValidMoves state.pos state.edges config.width config.height
        if moves.length = 0 then
          some (if stalemateAsDraw then (EScore.val 0, cache)
            else if state.current = 1 then (EScore.val LOSS_SCORE, cache)
            else (EScore.val WIN_SCORE, cache))
        else if state.current = 1 then
          match minimaxListMaxFuel fuel moves state (depth - 1) config goalCenter
            stalemateAsDraw alpha beta allowQuiescence EScore.negInf cache with
          | none => none
          | some r =>
            some (r.1, r.2.map fun c => cacheSet c (buildStateKey state) ⟨depth, r.1⟩)
        else
          match minimaxListMinFuel fuel moves state (depth - 1) config goalCenter
            stalemateAsDraw alpha beta allowQuiescence EScore.posInf cache with
          | none => none
          | some r =>
            some (r.1, r.2.map fun c => cacheSet c (buildStateKey state) ⟨depth, r.1⟩)
termination_by (fuel, 0)
decreasing_by
  · apply Prod.Lex.left
    omega
  · apply Prod.Lex.left
    omega
  · apply Prod.Lex.left
    omega

def minimaxListMaxFuel (fuel : Nat) (moves : List Pos) (state : SimState) (depth : Nat)
    (config : GameConfig) (goalCenter : Rat) (stalemateAsDraw : Bool)
    (alpha beta : EScore) (allowQuiescence : Bool) (value : EScore)
    (cache : Option Cache) : Option (EScore × Option Cache) :=
  match moves with
  | [] => some (value, cache)
  | m :: rest =>
    let next := simulateMove state m config stalemateAsDraw
    match minimaxFuel fuel next depth config goalCenter stalemateAsDraw alpha beta
      allowQuiescence cache with
    | none => none
    | some r =>
      let value' := max value r.1
      let alpha' := max alpha value'
      if beta ≤ alpha' then some (value', r.2)
      else minimaxListMaxFuel fuel rest state depth config goalCenter stalemateAsDraw
        alpha' beta allowQuiescence value' r.2
termination_by (fuel, moves.length + 1)
decreasing_by
  · apply Prod.Lex.right
    omega
  · apply Prod.Lex.right
    simp

def minimaxListMinFuel (fuel : Nat) (moves : List Pos) (state : SimState) (depth : Nat)
    (config : GameConfig) (goalCenter : Rat) (stalemateAsDraw : Bool)
    (alpha beta : EScore) (allowQuiescence : Bool) (value : EScore)
    (cache : Option Cache) : Option (EScore × Option Cache) :=
  match moves with
  | [] => some (value, cache)
  | m :: rest =>
    let next := simulateMove state m config stalemateAsDraw
    match minimaxFuel fuel next depth config goalCenter stalemateAsDraw alpha beta
      allowQuiescence cache with
    | none => none
    | some r =>
      let value' := min value r.1
      let beta' := min beta value'
      if beta' ≤ alpha then some (value', r.2)
      else minimaxListMinFuel fuel rest state depth config goalCenter stalemateAsDraw
        alpha beta' allowQuiescence value' r.2
termination_by (fuel, moves.length + 1)
decreasing_by
  · apply Prod.Lex.right
    omega
  · apply Prod.Lex.right
    simp

end

theorem minimaxFuel_eq :
    ∀ (fuel : Nat) (state : SimState) (depth : Nat) (config : GameConfig) (gc : Rat)
      (sad : Bool) (alpha beta : EScore) (q : Bool) (cache : Option Cache),
      2 * depth + (if q then 3 else 0) + 1 ≤ fuel →
      minimaxFuel fuel state depth config gc sad alpha beta q cache =
        some (minimax state depth config gc sad alpha beta q cache) := by
  intro fuel
  induction fuel using Nat.strong_induction_on with
  | _ fuel ih =>
    intro state depth config gc sad alpha beta q cache hb
    obtain ⟨f, rfl⟩ : ∃ f, fuel = f + 1 := ⟨fuel - 1, by omega⟩
    have hlistMax : ∀ (moves : List Pos) (α v : EScore) (c : Option Cache),
        depth ≠ 0 →
        minimaxListMaxFuel f moves state (depth - 1) config gc sad α beta q v c =
          some (minimaxListMax moves state (depth - 1) config gc sad α beta q v c) := by
      intro moves
      induction moves with
      | nil => intro α v c hd; simp [minimaxListMaxFuel, minimaxListMax]
      | cons m rest ihm =>
        intro α v c hd
        have hc : minimaxFuel f (simulateMove state m config sad) (depth - 1) config gc
            sad α beta q c =
            some (minimax (simulateMove state m config sad) (depth - 1) config gc sad
              α beta q c) := by
          apply ih f (by omega)
          cases q <;> simp_all <;> omega
        rw [minimaxListMaxFuel, minimaxListMax, hc]
        simp only []
        split
        · rfl
        · exact ihm _ _ _ hd
    have hlistMin : ∀ (moves : List Pos) (β v : EScore) (c : Option Cache),
        depth ≠ 0 →
        minimaxListMinFuel f moves state (depth - 1) config gc sad alpha β q v c =
          some (minimaxListMin moves state (depth - 1) config gc sad alpha β q v c) := by
      intro moves
      induction moves with
      | nil => intro β v c hd; simp [minimaxListMinFuel, minimaxListMin]
      | cons m rest ihm =>
        intro β v c hd
        have hc : minimaxFuel f (simulateMove state m config sad) (depth - 1) config gc
            sad alpha β q c =
            some (minimax (simulateMove state m config sad) (depth - 1) config gc sad
              alpha β q c) := by
          apply ih f (by omega)
          cases q <;> simp_all <;> omega
        rw [minimaxListMinFuel, minimaxListMin, hc]
        simp only []
        split
        · rfl
        · exact ihm _ _ _ hd
    rw [minimaxFuel.eq_def, minimax.eq_def]
    simp only []
    rcases hE : (match cache with
      | some c =>
        (match cacheGet c (buildStateKey state) with
          | some entry => if depth ≤ entry.depth then some entry.value else none
          | none => none : Option EScore)
      | none => none) with - | v
    · simp only [hE]
      by_cases h0 : depth = 0 ∨ state.winner ≠ none ∨ state.draw = true
      · rw [if_pos h0, dif_pos h0]
        by_cases hext : depth = 0 ∧ q = true ∧ shouldExtendSearch state config = true
        · rw [if_pos hext, dif_pos hext]
          have hc : minimaxFuel f state 1 config gc sad alpha beta false cache =
              some (minimax state 1 config gc sad alpha beta false cache) := by
            apply ih f (by omega)
            simp_all
          rw [hc]
        · rw [if_neg hext, dif_neg hext]
      · rw [if_neg h0, dif_neg h0]
        have hd : depth ≠ 0 := fun hh => h0 (Or.inl hh)
        by_cases hlen : (if state.validMoves.length > 0 then state.validMoves
            else computeValidMoves state.pos state.edges config.width
              config.height).length = 0
        · rw [if_pos hlen, if_pos hlen]
        · rw [if_neg hlen, if_neg hlen]
          by_cases hcur : state.current = 1
          · rw [if_pos hcur, if_pos hcur, hlistMax _ _ _ _ hd]
          · rw [if_neg hcur, if_neg hcur, hlistMin _ _ _ _ hd]
    · simp only [hE]

/-- C8: the search terminates on every input with a recursion nesting
bounded linearly by the depth argument: `minimaxFuel` with fuel
`2*depth + 3 + 1` (the `+3` budget is spent only when `allowQuiescence`
is true, covering the single extension ply entered at depth 0 as depth 1
with `allowQuiescence` forced false) never runs out of fuel and computes
exactly `minimax`; every other recursive call decreases the depth. -/
theorem claim_C8_bounded_recursion (fuel : Nat) (state : SimState) (depth : Nat)
    (config : GameConfig) (gc : Rat) (sad : Bool) (alpha beta : EScore) (q : Bool)
    (cache : Option Cache)
    (hfuel : 2 * depth + (if q then 3 else 0) + 1 ≤ fuel) :
    minimaxFuel fuel state depth config gc sad alpha beta q cache =
      some (minimax state depth config gc sad alpha beta q cache) :=
  minimaxFuel_eq fuel state depth config gc sad alpha beta q cache hfuel

/-- Witness for C8: fuel 4 suffices for a depth-0 search with the
extension enabled on a concrete terminal state. -/
theorem claim_C8_bounded_recursion_witness :
    minimaxFuel 4 ⟨⟨1, 1⟩, [], 1, false, some 1, false, []⟩ 0 ⟨10, 8, 2⟩ (7/2) false
        EScore.negInf EScore.posInf true none =
      some (minimax ⟨⟨1, 1⟩, [], 1, false, some 1, false, []⟩ 0 ⟨10, 8, 2⟩ (7/2) false
        EScore.negInf EScore.posInf true none) :=
  claim_C8_bounded_recursion 4 ⟨⟨1, 1⟩, [], 1, false, some 1, false, []⟩ 0 ⟨10, 8, 2⟩
    (7/2) false EScore.negInf EScore.posInf true none (by decide)

end Simple
end PaperSoccer

namespace PaperSoccer
namespace Simple

/-- `MoveAnalysis` from `PaperSoccerSimple.tsx`: a candidate move with its
heuristic score and the simulated successor state. -/
structure MoveAnalysis where
  move : Pos
  score : Rat
  nextState : SimState
deriving DecidableEq, Repr

/-- The three difficulty tiers of `PaperSoccerSimple.tsx`. -/
inductive DifficultyLevel where
  | easy
  | normal
  | hard
deriving DecidableEq, Repr

/-- `evaluateMove` from `PaperSoccerSimple.tsx`: simulates the move and
assigns the heuristic score (win/loss, draw, progress, centering, wall
distance, extra-turn and response-move terms). -/
def evaluateMove (baseState : SimState) (move : Pos) (player : Player)
    (config : GameConfig) (goalCenter : Rat) (stalemateAsDraw : Bool) : MoveAnalysis :=
  let result := simulateMove baseState move config stalemateAsDraw
  let targetSide : GoalSide := if player = 1 then .RIGHT else .LEFT
  let opponentSide : GoalSide := if player = 1 then .LEFT else .RIGHT
  let direction : Int := if player = 1 then 1 else -1
  if result.winner ≠ none then
    { move := move
      score := if result.winner = some player then WIN_SCORE else LOSS_SCORE
      nextState := result }
  else if result.draw then
    { move := move
      score := if stalemateAsDraw then -200 else -400
      nextState := result }
  else
    let score : Rat := 0
    let forwardProgress := (move.x - baseState.pos.x) * direction
    let score := score + (forwardProgress : Rat) * 42
    let targetX := if player = 1 then config.width else 0
    let distanceToTarget := |targetX - move.x|
    let score := score - (distanceToTarget : Rat) * 6
    let score := score - |goalCenter - (move.y : Rat)| * 9
    let ownGoalX := if player = 1 then 0 else config.width
    let distanceFromOwnGoal := |move.x - ownGoalX|
    let score := score + (distanceFromOwnGoal : Rat) * 3.5
    let distanceFromWalls := min move.y (config.height - move.y)
    let score := score + (distanceFromWalls : Rat) * 4
    let score := if player = 1 ∧ move.x ≤ 1 then score - 45 else score
    let score := if player = 0 ∧ move.x ≥ config.width - 1 then score - 45 else score
    let responseMoves := result.validMoves
    let score :=
      if result.extraTurn then
        let score := score + 18
        let score := score + (responseMoves.length : Rat) * 1.8
        let followWin := responseMoves.any fun follow =>
          Simple.isGoal follow config.width config.height config.goalWidth ==
            some targetSide
        let score := if followWin then score + 120 else score
        let opponentCounter := ((computeValidMoves result.pos result.edges config.width
            config.height).filter fun follow =>
          Simple.isGoal follow config.width config.height config.goalWidth ==
            some opponentSide).length
        if opponentCounter > 0 then score - (opponentCounter : Rat) * 90 else score
      else
        if responseMoves.length = 0 then
          score + (if stalemateAsDraw then 20 else 160)
        else
          let opponentGoal := responseMoves.any fun follow =>
            Simple.isGoal follow config.width config.height config.goalWidth ==
              some opponentSide
          let score := if opponentGoal then score - 160 else score
          let score := score - (responseMoves.length : Rat) * 2.4
          let trapped := responseMoves.all fun follow =>
            decide (4 ≤ incidentDegree follow result.edges config.width config.height)
          if trapped then score + 55 else score
    { move := move, score := score, nextState := result }

/-- Multiplication of a score by a non-negative constant as JavaScript
performs it on `±Infinity` (the code only uses factors `0.6` and `0.75`,
where the sign is preserved). -/
def escMulPos (x : EScore) (c : Rat) : EScore :=
  match x with
  | .negInf => .negInf
  | .val q => .val (q * c)
  | .posInf => .posInf

/-- Addition of a finite number to a possibly infinite score, as JavaScript
evaluates `q + x` on `±Infinity`. -/
def escAddVal (q : Rat) (x : EScore) : EScore :=
  match x with
  | .negInf => .negInf
  | .val r => .val (q + r)
  | .posInf => .posInf

/-- The near-tie test `Math.abs(a - b) <= 0.001` of `chooseComputerMove`;
on `±Infinity` the JavaScript difference is `NaN` or `±Infinity`, so the
comparison is false. -/
def escClose (x y : EScore) : Bool :=
  match x, y with
  | .val a, .val b => decide (|a - b| ≤ 0.001)
  | _, _ => false

/-- The per-tier parameter record destructured inside `chooseComputerMove`. -/
structure DifficultySettings where
  searchDepth : Nat
  depthWeight : Rat
  candidateLimit : Nat
  noiseFactor : Rat

/-- The difficulty-tier switch of `chooseComputerMove`. -/
def difficultySettings (difficulty : DifficultyLevel) (analysesLen : Nat) :
    DifficultySettings :=
  match difficulty with
  | .easy => ⟨0, 0, analysesLen, 0.55⟩
  | .normal => ⟨2, 0.6, min analysesLen 8, 0⟩
  | .hard => ⟨4, 0.75, analysesLen, 0⟩

/-- The body of the candidate-reduction loop of `chooseComputerMove` (the
non-easy tiers): runs the deep search on live successors, keeps the best
score, and resolves near-ties by raw heuristic score. -/
def chooseFoldStep (settings : DifficultySettings) (config : GameConfig) (gc : Rat)
    (sad : Bool) (acc : EScore × Option MoveAnalysis × Option Cache)
    (analysis : MoveAnalysis) : EScore × Option MoveAnalysis × Option Cache :=
  let bestScore := acc.1
  let chosenAcc := acc.2.1
  let cacheAcc := acc.2.2
  let step :=
    if settings.searchDepth > 0 ∧ analysis.nextState.winner = none ∧
        analysis.nextState.draw = false then
      let s := minimax analysis.nextState (settings.searchDepth - 1) config gc sad
        EScore.negInf EScore.posInf true cacheAcc
      (escAddVal analysis.score (escMulPos s.1 settings.depthWeight), s.2)
    else (EScore.val analysis.score, cacheAcc)
  let best' :=
    if escAddVal 0.001 bestScore < step.1 then (step.1, some analysis)
    else
      match chosenAcc with
      | some c =>
        if escClose step.1 bestScore then
          (if c.score + 0.001 < analysis.score then (bestScore, some analysis)
           else (bestScore, chosenAcc))
        else (bestScore, chosenAcc)
      | none => (bestScore, chosenAcc)
  (best'.1, best'.2, step.2)

/-- `chooseComputerMove` from `PaperSoccerSimple.tsx`: scores every valid
move, then either jitters the scores (easy tier) or reduces the sorted
candidates through the search loop, falling back to the first analysis. -/
def chooseComputerMove (state : SimState) (config : GameConfig)
    (difficulty : DifficultyLevel) (stalemateAsDraw : Bool) (goalCenter : Rat)
    (noise : Nat → Rat) : Option MoveAnalysis :=
  let analyses := state.validMoves.map fun move =>
    evaluateMove state move 1 config goalCenter stalemateAsDraw
  let transpositionTable : Cache := []
  let settings := difficultySettings difficulty analyses.length
  let chosen : Option MoveAnalysis :=
    if difficulty = .easy then
      let jittered := analyses.enum.map fun p =>
        { p.2 with score := p.2.score * settings.noiseFactor + noise p.1 * 160 }
      match jittered with
      | [] => none
      | a :: rest =>
        some (rest.foldl
          (fun best current => if best.score < current.score then current else best) a)
    else
      let ordered := (analyses.mergeSort fun x y => decide (y.score ≤ x.score)).take
        settings.candidateLimit
      let r := ordered.foldl (chooseFoldStep settings config goalCenter stalemateAsDraw)
        (EScore.negInf, none, some transpositionTable)
      r.2.1
  match chosen with
  | some c => some c
  | none => analyses.head?

theorem evaluateMove_move (baseState : SimState) (m : Pos) (player : Player)
    (config : GameConfig) (gc : Rat) (sad : Bool) :
    (evaluateMove baseState m player config gc sad).move = m := by
  rw [evaluateMove]
  split
  · rfl
  · split
    · rfl
    · rfl

theorem foldl_best_mem :
    ∀ (l : List MoveAnalysis) (init : MoveAnalysis),
      l.foldl (fun best current => if best.score < current.score then current else best)
        init ∈ init :: l := by
  intro l
  induction l with
  | nil => intro init; simp
  | cons b l ih =>
    intro init
    simp only [List.foldl_cons]
    rcases List.mem_cons.mp (ih (if init.score < b.score then b else init)) with h | h
    · rw [h]
      split
      · simp
      · simp
    · simp [List.mem_cons.mpr (Or.inr (List.mem_cons.mpr (Or.inr h)))]

theorem chooseFoldStep_cases (settings : DifficultySettings) (config : GameConfig)
    (gc : Rat) (sad : Bool) (acc : EScore × Option MoveAnalysis × Option Cache)
    (analysis : MoveAnalysis) :
    (chooseFoldStep settings config gc sad acc analysis).2.1 = some analysis ∨
    (chooseFoldStep settings config gc sad acc analysis).2.1 = acc.2.1 := by
  rw [chooseFoldStep]
  simp only []
  repeat' split
  all_goals first | (left; rfl) | (right; rfl)

theorem chooseFoldStep_inv (settings : DifficultySettings) (config : GameConfig)
    (gc : Rat) (sad : Bool) (acc : EScore × Option MoveAnalysis × Option Cache)
    (analysis : MoveAnalysis) (z : MoveAnalysis)
    (hz : (chooseFoldStep settings config gc sad acc analysis).2.1 = some z) :
    z = analysis ∨ acc.2.1 = some z := by
  rcases chooseFoldStep_cases settings config gc sad acc analysis with h | h
  · rw [h] at hz
    exact Or.inl (Option.some.inj hz).symm
  · rw [h] at hz
    exact Or.inr hz

theorem foldl_chosen_mem (settings : DifficultySettings) (config : GameConfig)
    (gc : Rat) (sad : Bool) :
    ∀ (l : List MoveAnalysis) (acc : EScore × Option MoveAnalysis × Option Cache)
      (x : MoveAnalysis),
      (l.foldl (chooseFoldStep settings config gc sad) acc).2.1 = some x →
      x ∈ l ∨ acc.2.1 = some x := by
  intro l
  induction l with
  | nil => intro acc x hx; exact Or.inr hx
  | cons a l ih =>
    intro acc x hx
    rw [List.foldl_cons] at hx
    rcases ih _ x hx with h | h
    · exact Or.inl (List.mem_cons.mpr (Or.inr h))
    · rcases chooseFoldStep_inv settings config gc sad acc a x h with h2 | h2
      · subst h2
        exact Or.inl (List.mem_cons.mpr (Or.inl rfl))
      · exact Or.inr h2


theorem mem_analyses_move (state : SimState) (config : GameConfig) (gc : Rat)
    (sad : Bool) (y : MoveAnalysis)
    (hy : y ∈ state.validMoves.map fun m => evaluateMove state m 1 config gc sad) :
    y.move ∈ state.validMoves := by
  rcases List.mem_map.mp hy with ⟨m, hm, rfl⟩
  rw [evaluateMove_move]
  exact hm

theorem easy_chosen_move_mem (l : List MoveAnalysis) (nf : Rat) (noise : Nat → Rat)
    (S : List Pos) (hS : ∀ y ∈ l, y.move ∈ S) (a : MoveAnalysis)
    (rest : List MoveAnalysis)
    (hj : l.enum.map (fun p => { p.2 with score := p.2.score * nf + noise p.1 * 160 }) =
      a :: rest) :
    (rest.foldl (fun best current => if best.score < current.score then current else best)
      a).move ∈ S := by
  have hmem := foldl_best_mem rest a
  rw [← hj] at hmem
  rcases List.mem_map.mp hmem with ⟨p, hp, hpe⟩
  rw [← hpe]
  have h2 : p.2 ∈ l.enum.map Prod.snd := List.mem_map_of_mem Prod.snd hp
  rw [List.enum_map_snd] at h2
  exact hS p.2 h2

theorem easy_branch_total (l : List MoveAnalysis) (nf : Rat) (noise : Nat → Rat)
    (hne : l ≠ []) :
    ∃ a rest,
      l.enum.map (fun p => { p.2 with score := p.2.score * nf + noise p.1 * 160 }) =
        a :: rest := by
  obtain ⟨b, t, rfl⟩ := List.exists_cons_of_ne_nil hne
  exact ⟨_, _, by rw [List.enum_cons, List.map_cons]⟩

/-- C10: for every `SimState` whose `validMoves` list is non-empty,
`chooseComputerMove` returns some `MoveAnalysis` whose `move` is an element
of that `validMoves` list, at every difficulty tier, for every outcome of
the random noise used by the easy tier, and for every goal centre and
stalemate policy. -/
theorem claim_C10_move_membership (state : SimState) (config : GameConfig)
    (difficulty : DifficultyLevel) (sad : Bool) (gc : Rat) (noise : Nat → Rat)
    (h : state.validMoves ≠ []) :
    ∃ a, chooseComputerMove state config difficulty sad gc noise = some a ∧
      a.move ∈ state.validMoves := by
  rw [chooseComputerMove]
  simp only []
  have hmem : ∀ y ∈ state.validMoves.map fun m => evaluateMove state m 1 config gc sad,
      y.move ∈ state.validMoves := fun y hy => mem_analyses_move state config gc sad y hy
  have hne : (state.validMoves.map fun m => evaluateMove state m 1 config gc sad) ≠ [] := by
    simpa using h
  by_cases hd : difficulty = DifficultyLevel.easy
  · rw [if_pos hd]
    obtain ⟨a, rest, hj⟩ := easy_branch_total
      (state.validMoves.map fun m => evaluateMove state m 1 config gc sad) _ noise hne
    rw [hj]
    exact ⟨_, rfl, easy_chosen_move_mem _ _ noise _ hmem a rest hj⟩
  · rw [if_neg hd]
    set A := state.validMoves.map fun m => evaluateMove state m 1 config gc sad with hA
    set stg := difficultySettings difficulty A.length with hstg
    cases hr : (((A.mergeSort fun x y => decide (y.score ≤ x.score)).take
        stg.candidateLimit).foldl (chooseFoldStep stg config gc sad)
        (EScore.negInf, none, some ([] : Cache))).2.1 with
    | some c =>
      refine ⟨c, rfl, ?_⟩
      rcases foldl_chosen_mem stg config gc sad _ _ c hr with h1 | h1
      · exact hmem c (List.mem_mergeSort.mp (List.mem_of_mem_take h1))
      · simp at h1
    | none =>
      obtain ⟨m, ms, hv⟩ := List.exists_cons_of_ne_nil h
      rw [hA, hv, List.map_cons]
      refine ⟨_, rfl, ?_⟩
      rw [evaluateMove_move]
      exact List.mem_cons_self m ms

theorem claim_C10_move_membership_witness :
    (⟨⟨1, 3⟩, [], 1, false, none, false, computeValidMoves ⟨1, 3⟩ [] 10 8⟩ :
        SimState).validMoves ≠ [] ∧
    ∃ a, chooseComputerMove
        ⟨⟨1, 3⟩, [], 1, false, none, false, computeValidMoves ⟨1, 3⟩ [] 10 8⟩
        ⟨10, 8, 2⟩ DifficultyLevel.easy false 4 (fun _ => 0) = some a ∧
      a.move ∈ (⟨⟨1, 3⟩, [], 1, false, none, false,
        computeValidMoves ⟨1, 3⟩ [] 10 8⟩ : SimState).validMoves :=
  ⟨by decide, claim_C10_move_membership
    ⟨⟨1, 3⟩, [], 1, false, none, false, computeValidMoves ⟨1, 3⟩ [] 10 8⟩
    ⟨10, 8, 2⟩ DifficultyLevel.easy false 4 (fun _ => 0) (by decide)⟩

end Simple
end PaperSoccer
